import Mathlib

/-!
Verification development for the bundled client-side module loader / component
runtime found in `docs/static/hello-e154ee25.js`.

The file has two parts.

Part 1 (`Lasso`) embeds the in-browser module system (the IIFE at the top of
the bundle): path normalization (`normalizePathParts`, `join`),
`withoutExtension`, `splitPackageIdAndSubpath`, `resolveInstalledModule`,
`resolve`, `requireModule`/`require`, the injected `require.resolve`, the
run-queue (`run`, `ready`, `pending`) and the registration entry points.
JavaScript strings are Lean `String`s; JS `indexOf`/`charAt`/`substring`
(including their `-1`/clamping behaviour) are mirrored by the `js*` helpers;
JS objects used as dictionaries become association lists; a thrown exception
becomes an `Except.error` paired with the state at the point of the throw.
Module factories are arbitrary JavaScript in the source; they are embedded as
lists of `Cmd` covering what bundle factories do that is visible to the module
system: requiring other modules (`creq`, `creqInto`), populating fields of the
factory's `exports` object (`cset`), and registering an async pending job
(`cpending`).  Exports objects live in an explicit heap so that object
*identity* (reference equality) is expressible.  The per-dirname `localCache`
of the injected `require` is a memo of `requireModule` results and is not
modelled separately (its hits coincide with instance-cache/global hits because
factories cannot alter resolution metadata).

Part 2 (`Marko`) embeds the component-runtime pieces the claims are about:
`KeySequence`, the `update-manager` module together with the component dirty /
queued flags and `setState` (`State.prototype._f_`), and
`Component.prototype.destroy` / `Component.prototype.___` with the DOM
abstracted to flat node lists.
-/

deriving instance DecidableEq for Except

namespace Lasso

/-- Association-list lookup, mirroring JS dictionary access `obj[key]`. -/
def lookupA {κ β : Type} [DecidableEq κ] (k : κ) : List (κ × β) → Option β
  | [] => none
  | (k', v) :: rest => if k = k' then some v else lookupA k rest

/-- Association-list update, mirroring JS dictionary assignment `obj[key] = v`. -/
def upsertA {κ β : Type} [DecidableEq κ] (k : κ) (v : β) : List (κ × β) → List (κ × β)
  | [] => [(k, v)]
  | (k', v') :: rest => if k = k' then (k, v) :: rest else (k', v') :: upsertA k v rest

/-- Association-list removal, mirroring JS `delete obj[key]`. -/
def deleteA {κ β : Type} [DecidableEq κ] (k : κ) : List (κ × β) → List (κ × β)
  | [] => []
  | (k', v) :: rest => if k = k' then rest else (k', v) :: deleteA k rest

/-- JS values that can appear as a module's `exports`: `undefined`, a primitive
(abstracted to a natural number), or a reference to a heap object. -/
inductive JsVal : Type
  | undef : JsVal
  | prim : Nat → JsVal
  | ref : Nat → JsVal
deriving DecidableEq

/-- Errors thrown by the module system: `moduleNotFoundError` (carrying the
target and the optional origin it was constructed with), the `RangeError`
produced by assigning a negative value to an array's `length`, a `TypeError`
for operations on `undefined`, and fuel exhaustion of the embedding. -/
inductive JsErr : Type
  | notFound : String → Option String → JsErr
  | rangeError : JsErr
  | typeError : JsErr
  | outOfFuel : JsErr
deriving DecidableEq

/-- The `code` property set by `moduleNotFoundError` (line 86 of the source). -/
def errCode : JsErr → Option String
  | .notFound _ _ => some "MODULE_NOT_FOUND"
  | _ => none

/-- The `message` built by `moduleNotFoundError`:
`'Cannot find module "' + target + '"' + (from ? ' from "' + from + '"' : '')`.
An absent or empty (falsy) origin is omitted. -/
def errMessage : JsErr → Option String
  | .notFound target origin =>
    some ("Cannot find module \"" ++ target ++ "\"" ++
      (match origin with
       | some f => if f = "" then "" else " from \"" ++ f ++ "\""
       | none => ""))
  | _ => none

/-- A command a module factory body can perform (shallow embedding of the
factory functions appearing in the bundle): require a target for effect,
require a target and store its exports into a field of this module's exports
object, set a field of the exports object, or call `$_mod.pending()`. -/
inductive Cmd : Type
  | creq : String → Cmd
  | creqInto : String → String → Cmd
  | cset : String → JsVal → Cmd
  | cpending : Cmd
deriving DecidableEq

/-- A registered definition: a factory function (embedded as a command list)
or a non-function object/value (`factoryOrObject.constructor !== Function`). -/
inductive Def : Type
  | factory : List Cmd → Def
  | value : JsVal → Def
deriving DecidableEq

/-- A `Module` instance: `id`/`filename` (the resolved path), the `loaded`
flag, and the `exports` value (a heap reference for factory modules). -/
structure Module : Type where
  id : String
  loaded : Bool
  exports : JsVal
deriving DecidableEq

/-- The resolution metadata of the loader closure: `definitions`, `mains`,
`remapped`, `builtins`, `installed` and `searchPaths`. -/
structure Meta : Type where
  definitions : List (String × Def)
  mains : List (String × String)
  remapped : List (String × String)
  builtins : List (String × String)
  installed : List (String × String)
  searchPaths : List String
deriving DecidableEq

/-- The full mutable state of the loader closure: metadata, the instance
cache, `loadedGlobalsByRealPath`, the heap of exports objects, the readiness
flag, the run queue and the pending-job counter. -/
structure RState : Type where
  meta : Meta
  instanceCache : List (String × Module)
  loadedGlobals : List (String × Module)
  heap : List (Nat × List (String × JsVal))
  nextRef : Nat
  ready : Bool
  runQueue : List (String × Option Bool)
  pendingCount : Int
deriving DecidableEq

/-- JS `s.charAt(i)` compared against a character: `none` plays the role of
the empty string returned for an out-of-range index. -/
def jsCharAt (s : String) (i : Nat) : Option Char :=
  s.data.get? i

def idxFromAux (c : Char) : List Char → Nat → Option Nat
  | [], _ => none
  | x :: rest, i => if x = c then some i else idxFromAux c rest (i + 1)

/-- JS `s.indexOf(c, start)` (result `-1` when absent; negative `start`
clamped to `0`). -/
def jsIndexOfFrom (s : String) (c : Char) (start : Int) : Int :=
  let st := (max start 0).toNat
  match idxFromAux c (s.data.drop st) 0 with
  | none => -1
  | some k => (st : Int) + (k : Int)

def lastIdxAux (c : Char) : List Char → Nat → Option Nat → Option Nat
  | [], _, best => best
  | x :: rest, i, best => lastIdxAux c rest (i + 1) (if x = c then some i else best)

/-- JS `s.lastIndexOf(c)` (result `-1` when absent). -/
def jsLastIndexOf (s : String) (c : Char) : Int :=
  match lastIdxAux c s.data 0 none with
  | none => -1
  | some k => (k : Int)

/-- JS `s.substring(start)` (negative `start` clamped to `0`). -/
def jsSubstringFrom (s : String) (start : Int) : String :=
  ⟨s.data.drop (max start 0).toNat⟩

/-- JS `s.substring(0, stop)` (negative `stop` clamped to `0`). -/
def jsSubstringTo (s : String) (stop : Int) : String :=
  ⟨s.data.take (max stop 0).toNat⟩

def splitSlashList : List Char → List (List Char)
  | [] => [[]]
  | c :: rest =>
    let r := splitSlashList rest
    if c = '/' then [] :: r
    else
      match r with
      | [] => [[c]]
      | g :: gs => (c :: g) :: gs

/-- JS `s.split('/')` (note `"".split('/') = [""]`). -/
def splitSlash (s : String) : List String :=
  (splitSlashList s.data).map fun l => ⟨l⟩

/-- One write `parts[len] = part` of `normalizePathParts`: an in-bounds index
overwrites, the index equal to the length appends, and a negative index is a
plain object-property write that the dense array (hence `join`/`length`)
never sees. -/
def setOrSnoc (acc : List String) (i : Nat) (x : String) : List String :=
  if i < acc.length then acc.set i x else acc ++ [x]

/-- The compaction loop of `normalizePathParts` (source lines 231-250): `"."`
is skipped, `".."` decrements the write cursor `len` (possibly below zero),
and any other part is written at the cursor, which is then incremented.
Reads `parts[i]` always see the original list because the cursor never
exceeds the read position. -/
def normLoop : List String → List String → Int → List String × Int
  | [], acc, len => (acc, len)
  | p :: rest, acc, len =>
    if p = "." then normLoop rest acc len
    else if p = ".." then normLoop rest acc (len - 1)
    else normLoop rest (if 0 ≤ len then setOrSnoc acc len.toNat p else acc) (len + 1)

/-- The tail of `normalizePathParts` after the loop (source lines 252-269),
applied to the loop's final accumulator and cursor: a final `len` of `1`
returns `"/"`; when `len > 2` and the last live part is the empty string,
`len` is decremented once (collapsing a single trailing empty segment); then
`parts.length = len` throws a `RangeError` when `len` is negative, and
otherwise the live prefix is joined with `"/"`. -/
def normPost (r : List String × Int) : Except JsErr String :=
  if r.2 = 1 then .ok "/"
  else
    if (if 2 < r.2 ∧ ((r.1.get? (r.2 - 1).toNat).getD "*") = "" then r.2 - 1 else r.2) < 0 then
      .error .rangeError
    else
      .ok (String.intercalate "/"
        (r.1.take (if 2 < r.2 ∧ ((r.1.get? (r.2 - 1).toNat).getD "*") = "" then r.2 - 1 else r.2).toNat))

/-- `normalizePathParts` (source lines 222-270): the compaction loop followed
by the final length fixups and join. -/
def normalizePathParts (parts : List String) : Except JsErr String :=
  normPost (normLoop parts [] 0)

/-- `normalizePathParts` generalized to an arbitrary in-progress loop state
(accumulator and cursor), used to reason about the loop by induction;
`normalizePathParts parts` is `normFrom parts [] 0` definitionally. -/
def normFrom (l : List String) (acc : List String) (len : Int) : Except JsErr String :=
  normPost (normLoop l acc len)

/-- `join(from, target)` (source lines 272-276). -/
def join (frm target : String) : Except JsErr String :=
  let targetParts := splitSlash target
  let fromParts := if frm = "/" then [""] else splitSlash frm
  normalizePathParts (fromParts ++ targetParts)

/-- `withoutExtension` (source lines 278-286): `none` plays the role of the
`null` returned when the path has no extension to strip. -/
def withoutExtension (path : String) : Option String :=
  let lastDotPos := jsLastIndexOf path '.'
  let lastSlashPos := jsLastIndexOf path '/'
  if lastDotPos = -1 ∨ (lastSlashPos ≠ -1 ∧ lastSlashPos > lastDotPos) then none
  else some (jsSubstringTo path lastDotPos)

/-- `splitPackageIdAndSubpath` (source lines 288-310).  Note that the scoped
check is `path.charAt(1) === '@'` on the path *after* the leading slash has
been stripped, i.e. it tests the second character of the stripped path. -/
def splitPackageIdAndSubpath (path : String) : String × String :=
  let p := jsSubstringFrom path 1
  let slashPos := jsIndexOfFrom p '/' 0
  let slashPos := if jsCharAt p 1 = some '@' then jsIndexOfFrom p '/' (slashPos + 1) else slashPos
  let packageIdEnd : Int := if slashPos = -1 then (p.data.length : Int) else slashPos
  (jsSubstringTo p packageIdEnd, jsSubstringFrom p packageIdEnd)

/-- The tail of `resolveInstalledModule` after the builtin check: split the
requesting path into its package identity, split the target (scoped `'@'`
targets consume two segments), and look up the installed version, splicing it
into `/<name>$<version><subpath>`. -/
def resolveInstalledTail (target : String) (frm? : Option String) (m : Meta) :
    Except JsErr (Option String) :=
  match frm? with
  | none => .error .typeError
  | some frm =>
    let fromPackageId := (splitPackageIdAndSubpath frm).1
    let targetSlashPos := jsIndexOfFrom target '/' 0
    let tp :=
      if targetSlashPos < 0 then (target, "")
      else
        let targetSlashPos :=
          if jsCharAt target 0 = some '@' then jsIndexOfFrom target '/' (targetSlashPos + 1)
          else targetSlashPos
        (jsSubstringTo target targetSlashPos, jsSubstringFrom target targetSlashPos)
    match lookupA (fromPackageId ++ "/" ++ tp.1) m.installed with
    | some v => if v = "" then .ok none else .ok (some ("/" ++ tp.1 ++ "$" ++ v ++ tp.2))
    | none => .ok none

/-- `resolveInstalledModule` (source lines 312-362): strip one trailing slash
from the target, consult the builtin table first (`if (builtinPath) return
builtinPath`), and only if that yields nothing (or an empty, falsy, path) fall
through to the installed-dependency lookup. -/
def resolveInstalledModule (target : String) (frm? : Option String) (m : Meta) :
    Except JsErr (Option String) :=
  let target :=
    if jsCharAt target (target.data.length - 1) = some '/' then
      jsSubstringTo target ((target.data.length : Int) - 1)
    else target
  match lookupA target m.builtins with
  | some bp => if bp = "" then resolveInstalledTail target frm? m else .ok (some bp)
  | none => resolveInstalledTail target frm? m

/-- The shared tail of `resolve` once a candidate absolute path is in hand
(source lines 387-424): reject the empty (falsy) path, apply at most one
directory-main substitution (defaulting the registered relative path to
`"index"` when it is the empty string), then at most one remap substitution
(skipped for an empty, falsy, replacement), then look the definition up,
retrying exactly once with the file extension stripped. -/
def finishResolve (rp : String) (m : Meta) : Except JsErr (Option (String × Def)) :=
  if rp = "" then .ok none
  else
    match (match lookupA rp m.mains with
           | some rel => join rp (if rel = "" then "index" else rel)
           | none => .ok rp) with
    | .error e => .error e
    | .ok rp1 =>
      let rp2 :=
        match lookupA rp1 m.remapped with
        | some q => if q = "" then rp1 else q
        | none => rp1
      match lookupA rp2 m.definitions with
      | some d => .ok (some (rp2, d))
      | none =>
        match withoutExtension rp2 with
        | none => .ok none
        | some rp3 =>
          match lookupA rp3 m.definitions with
          | some d => .ok (some (rp3, d))
          | none => .ok none

mutual

/-- `resolve(target, from)` (source lines 364-425).  Relative targets are
joined against `from`; absolute targets are normalized only; bare targets try
each search-path prefix (recursively) and then `resolveInstalledModule`.
`fuel` bounds the recursion depth of the embedding. -/
def resolve (fuel : Nat) (target : String) (frm? : Option String) (m : Meta) :
    Except JsErr (Option (String × Def)) :=
  match fuel with
  | 0 => .error .outOfFuel
  | .succ f =>
    if jsCharAt target 0 = some '.' then
      match frm? with
      | none => .error .typeError
      | some frm =>
        match join frm target with
        | .error e => .error e
        | .ok rp => finishResolve rp m
    else if jsCharAt target 0 = some '/' then
      match normalizePathParts (splitSlash target) with
      | .error e => .error e
      | .ok rp => finishResolve rp m
    else
      match searchPathsLoop f target frm? m m.searchPaths with
      | .error e => .error e
      | .ok (some r) => .ok (some r)
      | .ok none =>
        match resolveInstalledModule target frm? m with
        | .error e => .error e
        | .ok none => .ok none
        | .ok (some rp) => finishResolve rp m

/-- The `searchPaths` loop inside `resolve` (source lines 374-382): each
prefix is concatenated with the target and recursively resolved; the first
success wins. -/
def searchPathsLoop (fuel : Nat) (target : String) (frm? : Option String) (m : Meta) :
    List String → Except JsErr (Option (String × Def))
  | [] => .ok none
  | sp :: rest =>
    match fuel with
    | 0 => .error .outOfFuel
    | .succ f =>
      match resolve f (sp ++ target) frm? m with
      | .error e => .error e
      | .ok (some r) => .ok (some r)
      | .ok none => searchPathsLoop f target frm? m rest

end

/-- `filename.substring(0, filename.lastIndexOf('/'))`: the `__dirname`
passed to a factory. -/
def dirnameOf (filename : String) : String :=
  jsSubstringTo filename (jsLastIndexOf filename '/')

/-- Insert or replace a module in the instance cache
(`instanceCache[resolvedPath] = module`). -/
def cachePut (rp : String) (mo : Module) (s : RState) : RState :=
  { s with instanceCache := upsertA rp mo s.instanceCache }

/-- Allocate a fresh empty exports object (`this.exports = {}`). -/
def heapAlloc (s : RState) : Nat × RState :=
  (s.nextRef, { s with heap := upsertA s.nextRef [] s.heap, nextRef := s.nextRef + 1 })

/-- Mutate one field of a heap object (`exports[field] = v`). -/
def heapSet (r : Nat) (f : String) (v : JsVal) (s : RState) : RState :=
  match lookupA r s.heap with
  | some obj => { s with heap := upsertA r (upsertA f v obj) s.heap }
  | none => s

mutual

/-- `requireModule(target, from)` (source lines 427-469): an empty target
throws `moduleNotFoundError('')`; a failed resolution throws
`moduleNotFoundError(target, from)`; a cached instance (or a
globally-loaded instance) is returned as-is; otherwise a new `Module` is
created, inserted into the instance cache *before* its factory runs
(`Module_prototype.load`, source lines 113-172), and returned loaded. -/
def requireModule (fuel : Nat) (target : String) (frm? : Option String) (s : RState) :
    Except JsErr Module × RState :=
  match fuel with
  | 0 => (.error .outOfFuel, s)
  | .succ f =>
    if target = "" then (.error (.notFound "" none), s)
    else
      match resolve (.succ f) target frm? s.meta with
      | .error e => (.error e, s)
      | .ok none => (.error (.notFound target frm?), s)
      | .ok (some (rp, d)) =>
        match lookupA rp s.instanceCache with
        | some mo => (.ok mo, s)
        | none =>
          match lookupA rp s.loadedGlobals with
          | some gmo => (.ok gmo, s)
          | none =>
            let mo0 : Module := ⟨rp, false, JsVal.undef⟩
            let s1 := cachePut rp mo0 s
            match d with
            | .value v =>
              let mo' : Module := ⟨rp, true, v⟩
              (.ok mo', cachePut rp mo' s1)
            | .factory body =>
              let r := (heapAlloc s1).1
              let s2 := (heapAlloc s1).2
              let mo1 : Module := ⟨rp, false, JsVal.ref r⟩
              let s3 := cachePut rp mo1 s2
              match runCmds f body (dirnameOf rp) r s3 with
              | (.error e, s4) => (.error e, s4)
              | (.ok _, s4) =>
                let mo2 : Module := ⟨rp, true, JsVal.ref r⟩
                (.ok mo2, cachePut rp mo2 s4)

/-- Execute a factory body: each nested `require(target)` resolves from the
module's `__dirname` (the injected `instanceRequire` closes over it), field
writes mutate this module's exports object, and `cpending` performs
`$_mod.pending()` (readiness off, pending counter up). -/
def runCmds (fuel : Nat) (cmds : List Cmd) (dirname : String) (selfRef : Nat) (s : RState) :
    Except JsErr Unit × RState :=
  match fuel with
  | 0 => (.error .outOfFuel, s)
  | .succ f =>
    match cmds with
    | [] => (.ok (), s)
    | c :: rest =>
      match c with
      | .cset fld v => runCmds f rest dirname selfRef (heapSet selfRef fld v s)
      | .cpending =>
        runCmds f rest dirname selfRef
          { s with ready := false, pendingCount := s.pendingCount + 1 }
      | .creq t =>
        match requireModule f t (some dirname) s with
        | (.error e, s') => (.error e, s')
        | (.ok _, s') => runCmds f rest dirname selfRef s'
      | .creqInto fld t =>
        match requireModule f t (some dirname) s with
        | (.error e, s') => (.error e, s')
        | (.ok mo, s') => runCmds f rest dirname selfRef (heapSet selfRef fld mo.exports s')

end

/-- `require(target, from)` (source lines 471-474): the instance's exports. -/
def require (fuel : Nat) (target : String) (frm? : Option String) (s : RState) :
    Except JsErr JsVal × RState :=
  match requireModule fuel target frm? s with
  | (.ok mo, s') => (.ok mo.exports, s')
  | (.error e, s') => (.error e, s')

/-- The injected `instanceRequire.resolve(target)` (source lines 138-151):
resolution without instantiation, failing like `require` on an empty or
unresolvable target. -/
def requireResolve (fuel : Nat) (target : String) (dirname : String) (m : Meta) :
    Except JsErr String :=
  if target = "" then .error (.notFound "" none)
  else
    match resolve fuel target (some dirname) m with
    | .error e => .error e
    | .ok none => .error (.notFound target (some dirname))
    | .ok (some r) => .ok r.1

/-- The `wait` option of `run`: `!options || (options.wait !== false)`.  The
options object is modelled by its `wait` field (`none` covering both an
absent options object and an absent field). -/
def waitOf (o : Option Bool) : Bool :=
  match o with
  | some false => false
  | _ => true

/-- `run(path, options)` (source lines 479-486): if waiting is requested and
the page is not ready, enqueue `[path, options]`; otherwise `require(path,
'/')` immediately. -/
def runF (rf : Nat) (path : String) (o : Option Bool) (s : RState) :
    Except JsErr Unit × RState :=
  if waitOf o ∧ ¬s.ready then (.ok (), { s with runQueue := s.runQueue ++ [(path, o)] })
  else
    match require rf path (some "/") s with
    | (.error e, s') => (.error e, s')
    | (.ok _, s') => (.ok (), s')

/-- The inner `for` loop of `ready()`: replay each captured queue entry
through `run` (which re-enqueues it when readiness has been lost again). -/
def runJobs (rf : Nat) : List (String × Option Bool) → RState → Except JsErr Unit × RState
  | [], s => (.ok (), s)
  | (p, o) :: rest, s =>
    match runF rf p o s with
    | (.error e, s') => (.error e, s')
    | (.ok _, s') => runJobs rf rest s'

/-- The `while` loop of `ready()` (source lines 495-513): capture the queue,
reset it, run all captured jobs, and stop if readiness has flipped back to
false; otherwise repeat while the queue is non-empty. -/
def drainLoop (rf : Nat) : Nat → RState → Except JsErr Unit × RState
  | 0, s => (.error .outOfFuel, s)
  | df + 1, s =>
    if s.runQueue = [] then (.ok (), s)
    else
      let queue := s.runQueue
      let s1 := { s with runQueue := [] }
      match runJobs rf queue s1 with
      | (.error e, s') => (.error e, s')
      | (.ok _, s') => if s'.ready then drainLoop rf df s' else (.ok (), s')

/-- `ready()` (source lines 492-514): set the ready flag, then drain. -/
def readyF (rf df : Nat) (s : RState) : Except JsErr Unit × RState :=
  drainLoop rf df { s with ready := true }

/-- `$_mod.pending()` (source lines 578-584): force not-ready and increment
the pending-job counter. -/
def pendingStart (s : RState) : RState :=
  { s with ready := false, pendingCount := s.pendingCount + 1 }

/-- `onPendingComplete` (source lines 521-527): decrement the counter and
call `ready()` when it reaches zero. -/
def pendingDone (rf df : Nat) (s : RState) : Except JsErr Unit × RState :=
  let s' := { s with pendingCount := s.pendingCount - 1 }
  if s'.pendingCount = 0 then readyF rf df s' else (.ok (), s')

/-- `registerMain(path, relativePath)` (source lines 198-200). -/
def registerMain (path rel : String) (m : Meta) : Meta :=
  { m with mains := upsertA path rel m.mains }

/-- `remap(fromPath, toPath)` (source lines 202-204). -/
def remap (fromPath toPath : String) (m : Meta) : Meta :=
  { m with remapped := upsertA fromPath toPath m.remapped }

/-- `builtin(name, target)` (source lines 206-208). -/
def builtin (name target : String) (m : Meta) : Meta :=
  { m with builtins := upsertA name target m.builtins }

/-- `registerInstalledDependency(parentPath, packageName, packageVersion)`
(source lines 210-214). -/
def registerInstalledDependency (parentPath pkg ver : String) (m : Meta) : Meta :=
  { m with installed := upsertA (parentPath ++ "/" ++ pkg) ver m.installed }

/-- `addSearchPath(prefix)` (source lines 516-518). -/
def addSearchPath (sp : String) (m : Meta) : Meta :=
  { m with searchPaths := m.searchPaths ++ [sp] }

/-- `define(path, factoryOrObject, options)` (source lines 177-196): register
the definition, and when `options.globals` is non-empty require the module
immediately and record it in `loadedGlobalsByRealPath` (the window-global
assignment itself is outside the model; the source's per-global repeated
`requireModule` calls all return the first, now cached, instance). -/
def define (fuel : Nat) (path : String) (d : Def) (globals : List String) (s : RState) :
    Except JsErr Unit × RState :=
  let s := { s with meta := { s.meta with definitions := upsertA path d s.meta.definitions } }
  if globals.isEmpty then (.ok (), s)
  else
    match requireModule fuel path none s with
    | (.error e, s') => (.error e, s')
    | (.ok mo, s') => (.ok (), { s' with loadedGlobals := upsertA path mo s'.loadedGlobals })

end Lasso

namespace Marko

open Lasso (lookupA upsertA deleteA)

/-- `KeySequence` (source lines 1101-1126): a per-reconciliation-scope map
from key to the count of occurrences seen so far. -/
structure KeySequence : Type where
  lookup : List (String × Nat)
deriving DecidableEq

/-- A fresh `KeySequence` (`this._Q_ = {}`). -/
def KeySequence.init : KeySequence := ⟨[]⟩

/-- `KeySequence.prototype.c_(key)`: the first occurrence of a key stores `1`
and returns the key unchanged (the `lookup[key]++` on `undefined` produces a
falsy `NaN` index); the n-th subsequent occurrence returns
`key + "_" + n` and increments the stored count. -/
def KeySequence.c_ (ks : KeySequence) (key : String) : String × KeySequence :=
  match lookupA key ks.lookup with
  | none => (key, ⟨upsertA key 1 ks.lookup⟩)
  | some n => (key ++ "_" ++ toString n, ⟨upsertA key (n + 1) ks.lookup⟩)

/-- Run a whole sequence of key requests through one scope's generator. -/
def runKeys (ks : KeySequence) : List String → List String × KeySequence
  | [] => ([], ks)
  | k :: rest =>
    let r := ks.c_ k
    let rr := runKeys r.2 rest
    (r.1 :: rr.1, rr.2)

/-- A component as seen by the update scheduler: the `U_` queued flag, the
`T_` destroyed flag, the state dirtiness `state.V_`, the raw state map
`state._u_`, the state last applied to the DOM together with the number of
update/reconciliation passes, and the `setState` calls the component's own
user-defined update handlers perform during its update pass. -/
structure UComp : Type where
  queued : Bool
  destroyed : Bool
  sDirty : Bool
  stateMap : List (String × Nat)
  rendered : Option (List (String × Nat))
  renderCount : Nat
  effects : List (Nat × String × Nat)
deriving DecidableEq

/-- The module-level state of `update-manager` (source lines 2127-2129) plus
the component store and a count of `nextTick` scheduling calls. -/
structure MState : Type where
  comps : List (Nat × UComp)
  updatesScheduled : Bool
  batchStack : List (List Nat)
  unbatchedQueue : List Nat
  nextTickCount : Nat
deriving DecidableEq

/-- `scheduleUpdates` (source lines 2150-2160): schedule the deferred flush
via `nextTick` unless one is already scheduled. -/
def scheduleUpdates (ms : MState) : MState :=
  if ms.updatesScheduled then ms
  else { ms with updatesScheduled := true, nextTickCount := ms.nextTickCount + 1 }

/-- `queueComponentUpdate(component)` (source lines 2203-2228): with an
active batch, append to the top batch's list; otherwise schedule the flush
(at most once) and append to the shared unbatched queue. -/
def queueComponentUpdate (cid : Nat) (ms : MState) : MState :=
  match ms.batchStack with
  | b :: rest => { ms with batchStack := (b ++ [cid]) :: rest }
  | [] =>
    let ms1 := scheduleUpdates ms
    { ms1 with unbatchedQueue := ms1.unbatchedQueue ++ [cid] }

/-- `Component.prototype._e_` (source lines 4001-4006): queue this component
for update unless it is already queued. -/
def compQueueUpdate (cid : Nat) (ms : MState) : MState :=
  match lookupA cid ms.comps with
  | none => ms
  | some c =>
    if c.queued then ms
    else queueComponentUpdate cid { ms with comps := upsertA cid { c with queued := true } ms.comps }

/-- `State.prototype._f_(name, value)` on the `ensure` path used by
`setState` (source lines 1343-1377): a write of the currently-stored value is
ignored; otherwise the key is updated and, on the first modification of a
clean state, the state is marked dirty and the component is queued via
`_e_`. -/
def setState (cid : Nat) (name : String) (v : Nat) (ms : MState) : MState :=
  match lookupA cid ms.comps with
  | none => ms
  | some c =>
    if lookupA name c.stateMap = some v then ms
    else
      let c' := { c with sDirty := true, stateMap := upsertA name v c.stateMap }
      let ms' := { ms with comps := upsertA cid c' ms.comps }
      if c.sDirty then ms' else compQueueUpdate cid ms'

/-- Run the `setState` calls a component's update handlers perform. -/
def applyEffects : List (Nat × String × Nat) → MState → MState
  | [], ms => ms
  | (t, f, v) :: rest, ms => applyEffects rest (setState t f v ms)

/-- `Component.prototype.update` = `_w_` (source lines 4008-4032): a
destroyed or clean component returns immediately; otherwise its update
handlers run (possibly dirtying other components), one update/reconciliation
pass applies the current state to the DOM, and `I_` resets the dirty and
queued flags. -/
def compUpdate (cid : Nat) (ms : MState) : MState :=
  match lookupA cid ms.comps with
  | none => ms
  | some c =>
    if c.destroyed ∨ ¬c.sDirty then ms
    else
      let ms1 := applyEffects c.effects ms
      match lookupA cid ms1.comps with
      | none => ms1
      | some c1 =>
        let c2 := { c1 with
          renderCount := c1.renderCount + 1
          rendered := some c1.stateMap
          sDirty := false
          queued := false }
        { ms1 with comps := upsertA cid c2 ms1.comps }

/-- The loop of `updateComponents(queue)` (source lines 2162-2173): the index
is compared against the queue's *current* length on each iteration, so
entries appended during processing are also processed; afterwards the queue
is cleared. -/
def updateComponentsLoop : Nat → Nat → MState → Option MState
  | 0, _, _ => none
  | fuel + 1, i, ms =>
    if h : i < ms.unbatchedQueue.length then
      updateComponentsLoop fuel (i + 1) (compUpdate (ms.unbatchedQueue.get ⟨i, h⟩) ms)
    else some { ms with unbatchedQueue := [] }

/-- `updateUnbatchedComponents` (source lines 2137-2148): process the whole
unbatched queue (if non-empty) and finally reset the scheduled flag. -/
def updateUnbatchedComponents (fuel : Nat) (ms : MState) : Option MState :=
  if ms.unbatchedQueue.length ≠ 0 then
    (updateComponentsLoop fuel 0 ms).map fun ms' => { ms' with updatesScheduled := false }
  else some ms

/-- A DOM node as the destroy path sees it: whether the event-delegation
detach hook `_a_` vetoes its removal (the hook is `noop` in this bundle, so
the flag is false for every node produced by it). -/
structure DomNode : Type where
  skipRemoval : Bool
deriving DecidableEq

/-- A component root (`this.K_`): its `nodes` list and `detached` flag. -/
structure RootNode : Type where
  nodes : List Nat
  detached : Bool
deriving DecidableEq

/-- A component as the destroy path sees it: `id`, the `T_` destroyed flag,
the root reference `K_`, the subscription-tracker handles `L_`, the DOM
event-listener handles `M_`, and the keyed-element map `m_`. -/
structure DComp : Type where
  id : String
  destroyed : Bool
  root : Option Nat
  subs : Option (List Nat)
  domHandles : Option (List Nat)
  keyed : List (String × Nat)
deriving DecidableEq

/-- Global state for the destroy model: the component heap (by object
reference), `componentLookup` (id to reference), root nodes, DOM nodes, the
set of attached DOM nodes, the live listener handles of the two trackers,
the emitted lifecycle-event log, and `componentsByDOMNode`. -/
structure CState : Type where
  comps : List (Nat × DComp)
  componentLookup : List (String × Nat)
  roots : List (Nat × RootNode)
  nodes : List (Nat × DomNode)
  attached : List Nat
  activeSubs : List Nat
  activeDomListeners : List Nat
  events : List (String × String)
  compsByDOMNode : List (Nat × Option Nat)
deriving DecidableEq

/-- `eventDelegation._a_` is `noop` in this bundle (source line 964), so it
returns `undefined` for every node. -/
def eventDelegation_a (_n : Nat) : Option Bool := none

/-- `Component.prototype.___` (source lines 3873-3893): guarded by the
destroyed flag; emits the `destroy` lifecycle event, sets the flag, clears
the `componentsByDOMNode` entry for the root, nulls the root, removes all
DOM event listeners (`_b_`) and all subscription-tracker listeners. -/
def lifecycleDestroy (cref : Nat) (s : CState) : CState :=
  match lookupA cref s.comps with
  | none => s
  | some c =>
    if c.destroyed then s
    else
      let s1 := { s with events := s.events ++ [(c.id, "destroy")] }
      let s2 :=
        match c.root with
        | some r => { s1 with compsByDOMNode := upsertA r (none : Option Nat) s1.compsByDOMNode }
        | none => s1
      let s3 :=
        match c.domHandles with
        | some hs =>
          { s2 with activeDomListeners := s2.activeDomListeners.filter fun x => ¬x ∈ hs }
        | none => s2
      let s4 :=
        match c.subs with
        | some hs => { s3 with activeSubs := s3.activeSubs.filter fun x => ¬x ∈ hs }
        | none => s3
      let c' := { c with destroyed := true, root := none, domHandles := none, subs := none }
      { s4 with comps := upsertA cref c' s4.comps }

/-- The `delete componentLookup[componentToDestroy.id]` step of
`destroyComponentForNode` (source line 678). -/
def destroyDropLookup (cref2 : Nat) (s' : CState) : CState :=
  match lookupA cref2 s'.comps with
  | some c2 => { s' with componentLookup := deleteA c2.id s'.componentLookup }
  | none => s'

/-- `destroyNodeRecursive` restricted to the flat node lists of this model
(source lines 674-702): tear down the component associated with the node, if
any, and drop its id from `componentLookup`. -/
def destroyNodeRecursiveM (n : Nat) (s : CState) : CState :=
  match lookupA n s.compsByDOMNode with
  | some (some cref2) => destroyDropLookup cref2 (lifecycleDestroy cref2 s)
  | _ => s

/-- The per-node body of the `forEach` in `destroy`: recursive teardown, then
removal from the DOM unless the detach hook returns `false`. -/
def detachNode (s : CState) (n : Nat) : CState :=
  let s1 := destroyNodeRecursiveM n s
  if eventDelegation_a n ≠ some false then { s1 with attached := s1.attached.filter (· ≠ n) }
  else s1

/-- `Component.prototype.destroy` (source lines 3848-3871): a no-op on an
already-destroyed component; otherwise capture the root, run `___`, detach
every root node, mark the root detached, delete the id from
`componentLookup`, and clear the keyed-element map. -/
def destroyC (cref : Nat) (s : CState) : CState :=
  match lookupA cref s.comps with
  | none => s
  | some c =>
    if c.destroyed then s
    else
      let root? := c.root
      let s1 := lifecycleDestroy cref s
      match root? with
      | none => s1
      | some rr =>
        let nodes := match lookupA rr s1.roots with
          | some rn => rn.nodes
          | none => []
        let s2 := nodes.foldl detachNode s1
        let s3 := { s2 with roots := upsertA rr (⟨nodes, true⟩ : RootNode) s2.roots }
        match lookupA cref s3.comps with
        | some c3 =>
          { s3 with
            componentLookup := deleteA c3.id s3.componentLookup
            comps := upsertA cref { c3 with keyed := [] } s3.comps }
        | none => s3

end Marko

namespace Scenario

open Lasso Marko

/-- Registry for the circular-require scenario of claim C1: module A's
factory writes a field, requires B, then writes another field; module B's
factory requires A and stores the exports it observes in a field. -/
def c1Meta : Meta := ⟨[
  ("/a$1.0.0/index", Def.factory
    [.cset "x" (.prim 1), .creqInto "b" "/b$1.0.0/index", .cset "y" (.prim 2)]),
  ("/b$1.0.0/index", Def.factory [.creqInto "a" "/a$1.0.0/index"])], [], [], [], [], []⟩

/-- Initial loader state for the circular-require scenario. -/
def c1State : RState := ⟨c1Meta, [], [], [], 0, true, [], 0⟩

/-- Metadata with one installed dependency, for the version-splicing parts of
claim C2. -/
def c2InstMeta : Meta := ⟨[], [], [], [], [("app$1.0.0/foo", "2.0.0")], []⟩

/-- Metadata with one installed scoped dependency, for the scoped-target part
of claim C2. -/
def c2ScopedMeta : Meta := ⟨[], [], [], [], [("app$1.0.0/@sc/pkg", "3.0.0")], []⟩

/-- Metadata registering `foo` both as a builtin and as an installed
dependency of `app$1.0.0`, with definitions for both resolved paths: the
counterexample state for claim C2. -/
def c2CexMeta : Meta := ⟨
  [("/foo-b$9.9.9/index", Def.value (.prim 1)), ("/foo$2.0.0", Def.value (.prim 2))],
  [], [], [("foo", "/foo-b$9.9.9/index")], [("app$1.0.0/foo", "2.0.0")], []⟩

/-- Metadata whose only definition is the twice-stripped `/x/a`, used to show
the extension-stripping retry of claim C4 happens exactly once. -/
def c4OnceMeta : Meta := ⟨[("/x/a", Def.value (.prim 1))], [], [], [], [], []⟩

/-- Registry for the run-queue scenarios of claim C5: entry `e1` registers a
pending job (flipping readiness off mid-drain); `e2` and `e3` are plain. -/
def c5Meta : Meta := ⟨[
  ("/e1$1.0.0/index", Def.factory [.cpending]),
  ("/e2$1.0.0/index", Def.factory []),
  ("/e3$1.0.0/index", Def.factory [])], [], [], [], [], []⟩

/-- Not-ready initial state for the mid-drain-flip scenario. -/
def c5S0 : RState := ⟨c5Meta, [], [], [], 0, false, [], 0⟩

/-- State after the three `run` calls queued their entries. -/
def c5S1 : RState := (runF 6 "/e3$1.0.0/index" none
  (runF 6 "/e2$1.0.0/index" none (runF 6 "/e1$1.0.0/index" none c5S0).2).2).2

/-- Registry of three plain entry modules for the FIFO-drain scenario. -/
def c5bMeta : Meta := ⟨[
  ("/e1$1.0.0/index", Def.factory []),
  ("/e2$1.0.0/index", Def.factory []),
  ("/e3$1.0.0/index", Def.factory [])], [], [], [], [], []⟩

/-- Not-ready initial state for the FIFO-drain scenario. -/
def c5bS0 : RState := ⟨c5bMeta, [], [], [], 0, false, [], 0⟩

/-- State after the three `run` calls queued their entries, in order. -/
def c5bS1 : RState := (runF 6 "/e3$1.0.0/index" none
  (runF 6 "/e2$1.0.0/index" none (runF 6 "/e1$1.0.0/index" none c5bS0).2).2).2

/-- Component 1 of the flush scenario of claim C7: dirty, queued, and its
update handlers call `setState` on component 2. -/
def c7Comp1 : UComp := ⟨true, false, true, [("a", 1)], none, 0, [(2, "x", 5)]⟩

/-- Component 2 of the flush scenario of claim C7: initially clean. -/
def c7Comp2 : UComp := ⟨false, false, false, [], none, 0, []⟩

/-- Manager state with component 1 queued and the flush scheduled. -/
def c7MS : MState := ⟨[(1, c7Comp1), (2, c7Comp2)], true, [], [1], 1⟩

/-- Component for the destroy scenario of claim C8: alive, with a root whose
node list is `[10, 11]`, two tracked subscriptions and one DOM listener. -/
def c8Comp : DComp := ⟨"c1", false, some 100, some [7, 8], some [5], [("k", 10)]⟩

/-- Global state for the destroy scenario of claim C8. -/
def c8S : CState := ⟨[(1, c8Comp)], [("c1", 1)], [(100, ⟨[10, 11], false⟩)],
  [(10, ⟨false⟩), (11, ⟨false⟩)], [10, 11, 12], [7, 8, 9], [5, 6], [], []⟩

end Scenario

section Lemmas

open Lasso

theorem lookupA_upsertA_self {κ β : Type} [DecidableEq κ] (k : κ) (v : β)
    (l : List (κ × β)) : lookupA k (upsertA k v l) = some v := by
  induction l with
  | nil => simp [lookupA, upsertA]
  | cons p rest ih =>
    by_cases h : k = p.1
    · simp [lookupA, upsertA, h]
    · simp [lookupA, upsertA, h, ih]

theorem lookupA_upsertA_ne {κ β : Type} [DecidableEq κ] {k k' : κ} (v : β)
    (l : List (κ × β)) (h : k ≠ k') : lookupA k (upsertA k' v l) = lookupA k l := by
  induction l with
  | nil => simp [lookupA, upsertA, h]
  | cons p rest ih =>
    by_cases h2 : k' = p.1
    · subst h2
      simp [lookupA, upsertA, h]
    · by_cases h3 : k = p.1 <;> simp [lookupA, upsertA, h2, h3, ih]

theorem normalizePathParts_eq_normFrom (parts : List String) :
    normalizePathParts parts = normFrom parts [] 0 := rfl

end Lemmas

section ClaimC9

open Lasso Marko

theorem runKeys_state (l : List String) (ks : KeySequence) (k : String) :
    lookupA k (runKeys ks l).2.lookup =
      match lookupA k ks.lookup with
      | none => if l.count k = 0 then none else some (l.count k)
      | some n => some (n + l.count k) := by
  induction l generalizing ks with
  | nil =>
    cases h : lookupA k ks.lookup <;> simp [runKeys, h]
  | cons hd tl ih =>
    by_cases hk : hd = k
    · subst hk
      cases h : lookupA hd ks.lookup with
      | none =>
        have := ih ⟨upsertA hd 1 ks.lookup⟩
        simp [runKeys, KeySequence.c_, h, lookupA_upsertA_self] at this ⊢
        rw [this]
        simp [List.count_cons]
        omega
      | some n =>
        have := ih ⟨upsertA hd (n + 1) ks.lookup⟩
        simp [runKeys, KeySequence.c_, h, lookupA_upsertA_self] at this ⊢
        rw [this]
        simp [List.count_cons]
        omega
    · have hne : k ≠ hd := fun hh => hk hh.symm
      cases h : lookupA hd ks.lookup with
      | none =>
        have := ih ⟨upsertA hd 1 ks.lookup⟩
        simp [runKeys, KeySequence.c_, h, lookupA_upsertA_ne _ _ hne] at this ⊢
        rw [this]
        simp [List.count_cons, hk]
      | some n =>
        have := ih ⟨upsertA hd (n + 1) ks.lookup⟩
        simp [runKeys, KeySequence.c_, h, lookupA_upsertA_ne _ _ hne] at this ⊢
        rw [this]
        simp [List.count_cons, hk]

/-- C9: for every reconciliation scope (a fresh `KeySequence`) and every key
string, after any prior sequence of key requests the next request for `k`
returns `k` unchanged if `k` has not occurred before, and returns
`k ++ "_" ++ n` when it is the (n+1)-th occurrence: the second occurrence
gets `_1`, the third `_2`, and so on. -/
theorem c9_key_sequence_suffixes (prior : List String) (k : String) :
    ((runKeys KeySequence.init prior).2.c_ k).1 =
      if prior.count k = 0 then k else k ++ "_" ++ toString (prior.count k) := by
  have h : lookupA k (runKeys KeySequence.init prior).2.lookup =
      if prior.count k = 0 then none else some (prior.count k) := by
    have h0 := runKeys_state prior KeySequence.init k
    simp only [KeySequence.init, lookupA] at h0
    exact h0
  unfold KeySequence.c_
  rw [h]
  by_cases hc : prior.count k = 0 <;> simp [hc]

end ClaimC9

section ClaimC10

open Lasso

theorem resolve_dotdot_empty (f : Nat) (m : Meta) :
    resolve (f + 1) "../.." (some "/a") m = .ok none := by
  have hj : join "/a" "../.." = .ok "" := by rfl
  simp [resolve, hj, finishResolve, show jsCharAt "../.." 0 = some '.' from rfl]

theorem resolve_dotdot_range (f : Nat) (m : Meta) :
    resolve (f + 1) "../.." (some "/") m = .error .rangeError := by
  have hj : join "/" "../.." = .error .rangeError := by rfl
  simp [resolve, hj, show jsCharAt "../.." 0 = some '.' from rfl]

/-- C10: path normalization does not clamp excess `..` at the root.  Joining
`/a` with `../..` yields the empty string, which `resolve` treats as
not-found; joining `/` with `../..` drives the part count negative and the
`parts.length = len` assignment throws a `RangeError`, so `require` of such a
target propagates a `RangeError` (whose `code` is not `MODULE_NOT_FOUND`)
instead of the module-not-found error. -/
theorem c10_root_underflow :
    (join "/a" "../.." = .ok "") ∧
    (∀ (f : Nat) (m : Meta), resolve (f + 1) "../.." (some "/a") m = .ok none) ∧
    (join "/" "../.." = .error .rangeError) ∧
    (∀ (f : Nat) (s : RState),
      requireModule (f + 1) "../.." (some "/") s = (.error .rangeError, s)) ∧
    errCode .rangeError ≠ some "MODULE_NOT_FOUND" := by
  refine ⟨by rfl, resolve_dotdot_empty, by rfl, ?_, by decide⟩
  intro f s
  simp [requireModule, resolve_dotdot_range f s.meta]

end ClaimC10

section ClaimC6

open Lasso

/-- C6: `require` (and the injected `require.resolve`) throws the error with
`code = "MODULE_NOT_FOUND"` exactly when the target is empty or resolution
finds no definition; the message carries the target and, when an origin is
available (and non-empty), the origin path, while empty-target misuse builds
the message without an origin; and in the failure cases the state is returned
untouched, so no module instance is created or cached.  Conversely a cache
hit and a resolved non-function definition succeed without error. -/
theorem c6_module_not_found :
    (∀ (f : Nat) (frm? : Option String) (s : RState),
      requireModule (f + 1) "" frm? s = (.error (.notFound "" none), s)) ∧
    (∀ (f : Nat) (t : String) (frm? : Option String) (s : RState),
      t ≠ "" → resolve (f + 1) t frm? s.meta = .ok none →
      requireModule (f + 1) t frm? s = (.error (.notFound t frm?), s)) ∧
    (∀ (t : String) (o : Option String), errCode (.notFound t o) = some "MODULE_NOT_FOUND") ∧
    (∀ t : String, errMessage (.notFound t none) =
      some ("Cannot find module \"" ++ t ++ "\"")) ∧
    (∀ t o : String, o ≠ "" → errMessage (.notFound t (some o)) =
      some ("Cannot find module \"" ++ t ++ "\"" ++ (" from \"" ++ o ++ "\""))) ∧
    (∀ (f : Nat) (t : String) (frm? : Option String) (s : RState) (rp : String)
        (d : Def) (mo : Module),
      t ≠ "" → resolve (f + 1) t frm? s.meta = .ok (some (rp, d)) →
      lookupA rp s.instanceCache = some mo →
      requireModule (f + 1) t frm? s = (.ok mo, s)) ∧
    (∀ (f : Nat) (t : String) (frm? : Option String) (s : RState) (rp : String) (v : JsVal),
      t ≠ "" → resolve (f + 1) t frm? s.meta = .ok (some (rp, .value v)) →
      lookupA rp s.instanceCache = none → lookupA rp s.loadedGlobals = none →
      requireModule (f + 1) t frm? s =
        (.ok ⟨rp, true, v⟩, cachePut rp ⟨rp, true, v⟩ (cachePut rp ⟨rp, false, .undef⟩ s))) ∧
    (∀ (f : Nat) (d : String) (m : Meta),
      requireResolve f "" d m = .error (.notFound "" none)) ∧
    (∀ (f : Nat) (t d : String) (m : Meta),
      t ≠ "" → resolve f t (some d) m = .ok none →
      requireResolve f t d m = .error (.notFound t (some d))) := by
  refine ⟨?_, ?_, ?_, ?_, ?_, ?_, ?_, ?_, ?_⟩
  · intro f frm? s
    simp [requireModule]
  · intro f t frm? s ht hres
    simp [requireModule, ht, hres]
  · intro t o
    rfl
  · intro t
    simp [errMessage, String.append_empty]
  · intro t o ho
    simp [errMessage, ho]
  · intro f t frm? s rp d mo ht hres hc
    simp [requireModule, ht, hres, hc]
  · intro f t frm? s rp v ht hres hc hg
    simp [requireModule, ht, hres, hc, hg]
  · intro f d m
    simp [requireResolve]
  · intro f t d m ht hres
    simp [requireResolve, ht, hres]

/-- Witness for C6: in the empty state the target `/nope` resolves to
nothing, so `require` raises the module-not-found error carrying the target
and origin, and the state is unchanged. -/
theorem c6_witness :
    requireModule 1 "/nope" (some "/") (⟨⟨[], [], [], [], [], []⟩, [], [], [], 0, true, [], 0⟩ : RState) =
      (.error (.notFound "/nope" (some "/")),
       (⟨⟨[], [], [], [], [], []⟩, [], [], [], 0, true, [], 0⟩ : RState)) :=
  c6_module_not_found.2.1 0 "/nope" (some "/") _ (by decide) (by rfl)

end ClaimC6

section ClaimC4

open Lasso Scenario

/-- C4: once a candidate absolute path is obtained, at most one
directory-main substitution is applied (appending the registered main,
defaulting to `index` for an empty registration — and not re-applied even
when the substituted path itself has a registered main), then at most one
remap substitution (not chased further), then the definition lookup, with
exactly one retry on the extension-stripped path; if no definition is found
the outcome is not-found and `require` raises module-not-found. -/
theorem c4_candidate_postprocessing :
    (∀ (p q : String) (m : Meta) (d : Def), p ≠ "" →
      lookupA p m.mains = some "" → join p "index" = .ok q →
      lookupA q m.remapped = none → lookupA q m.definitions = some d →
      finishResolve p m = .ok (some (q, d))) ∧
    (∀ (p q : String) (m : Meta) (d : Def), p ≠ "" →
      lookupA p m.mains = none → lookupA p m.remapped = some q → q ≠ "" →
      lookupA q m.definitions = some d →
      finishResolve p m = .ok (some (q, d))) ∧
    (∀ (p p' : String) (m : Meta) (d : Def), p ≠ "" →
      lookupA p m.mains = none → lookupA p m.remapped = none →
      lookupA p m.definitions = none → withoutExtension p = some p' →
      lookupA p' m.definitions = some d →
      finishResolve p m = .ok (some (p', d))) ∧
    (∀ (p : String) (m : Meta), p ≠ "" →
      lookupA p m.mains = none → lookupA p m.remapped = none →
      lookupA p m.definitions = none → withoutExtension p = none →
      finishResolve p m = .ok none) ∧
    (∀ (p p' : String) (m : Meta), p ≠ "" →
      lookupA p m.mains = none → lookupA p m.remapped = none →
      lookupA p m.definitions = none → withoutExtension p = some p' →
      lookupA p' m.definitions = none →
      finishResolve p m = .ok none) ∧
    (finishResolve "/x/a.b.c" c4OnceMeta = .ok none) ∧
    (∀ (f : Nat) (t : String) (frm? : Option String) (s : RState),
      t ≠ "" → resolve (f + 1) t frm? s.meta = .ok none →
      requireModule (f + 1) t frm? s = (.error (.notFound t frm?), s)) := by
  refine ⟨?_, ?_, ?_, ?_, ?_, by rfl, ?_⟩
  · intro p q m d hp hm hj hr hd
    simp [finishResolve, hp, hm, hj, hr, hd]
  · intro p q m d hp hm hr hq hd
    simp [finishResolve, hp, hm, hr, hq, hd]
  · intro p p' m d hp hm hr hd hwo hd'
    simp [finishResolve, hp, hm, hr, hd, hwo, hd']
  · intro p m hp hm hr hd hwo
    simp [finishResolve, hp, hm, hr, hd, hwo]
  · intro p p' m hp hm hr hd hwo hd'
    simp [finishResolve, hp, hm, hr, hd, hwo, hd']
  · intro f t frm? s ht hres
    simp [requireModule, ht, hres]

/-- Witness for C4: a registered directory main with an empty relative path
defaults to `index`; together with a definition at the joined path, `resolve`
succeeds there. -/
theorem c4_witness :
    finishResolve "/p$1.0.0" (⟨[("/p$1.0.0/index", Def.value (.prim 7))],
        [("/p$1.0.0", "")], [], [], [], []⟩ : Meta) =
      .ok (some ("/p$1.0.0/index", Def.value (.prim 7))) :=
  c4_candidate_postprocessing.1 "/p$1.0.0" "/p$1.0.0/index" _ (Def.value (.prim 7))
    (by decide) (by rfl) (by rfl) (by rfl) (by rfl)

end ClaimC4

section ClaimC2

open Lasso Scenario

/-- C2 counterexample: `foo` is registered both as a builtin (resolving to
`/foo-b$9.9.9/index`) and as an installed dependency of `app$1.0.0` (version
`2.0.0`, which would splice to `/foo$2.0.0`), with definitions for both
paths.  The claim states the builtin table is consulted only after the
installed-dependency lookup yields nothing, which would make `foo` resolve to
`/foo$2.0.0`; the code consults the builtin table first and resolves to the
builtin path instead. -/
theorem c2_counterexample :
    resolve 5 "foo" (some "/app$1.0.0/lib/x") c2CexMeta =
      .ok (some ("/foo-b$9.9.9/index", Def.value (.prim 1))) ∧
    lookupA "app$1.0.0/foo" c2CexMeta.installed = some "2.0.0" ∧
    ("/foo-b$9.9.9/index" : String) ≠ "/foo$2.0.0" :=
  ⟨by rfl, by rfl, by decide⟩

/-- C2 (amended): for a bare specifier, candidates are tried in this order:
each registered search-path prefix concatenated with the specifier and
recursively resolved (the first success wins); then `resolveInstalledModule`,
inside which the builtin-name table is consulted *before* the
installed-dependency lookup; when no builtin matches, the installed lookup
scopes to the requesting module's package identity and splices a found
version into `/<name>$<version><subpath>`.  Scoped `@` package names consume
two path segments on the *target* side; on the requesting-path side the
scoped check reads the second character of the slash-stripped path, so a
scoped requesting path is split after its first segment. -/
theorem c2_bare_resolution_order :
    (∀ (f : Nat) (t : String) (frm? : Option String) (m : Meta) (sp : String)
        (sps : List String) (r : String × Def),
      jsCharAt t 0 ≠ some '.' → jsCharAt t 0 ≠ some '/' →
      m.searchPaths = sp :: sps →
      resolve f (sp ++ t) frm? m = .ok (some r) →
      resolve (f + 2) t frm? m = .ok (some r)) ∧
    (∀ (t : String) (frm? : Option String) (m : Meta) (bp : String),
      jsCharAt t (t.length - 1) ≠ some '/' →
      lookupA t m.builtins = some bp → bp ≠ "" →
      resolveInstalledModule t frm? m = .ok (some bp)) ∧
    (∀ (f : Nat) (t : String) (frm? : Option String) (m : Meta) (rp : String),
      jsCharAt t 0 ≠ some '.' → jsCharAt t 0 ≠ some '/' →
      m.searchPaths = [] →
      resolveInstalledModule t frm? m = .ok (some rp) →
      resolve (f + 1) t frm? m = finishResolve rp m) ∧
    (resolveInstalledModule "foo" (some "/app$1.0.0/src/x") c2InstMeta =
      .ok (some "/foo$2.0.0")) ∧
    (resolveInstalledModule "foo/bar" (some "/app$1.0.0/src/x") c2InstMeta =
      .ok (some "/foo$2.0.0/bar")) ∧
    (resolveInstalledModule "@sc/pkg/sub" (some "/app$1.0.0/x") c2ScopedMeta =
      .ok (some "/@sc/pkg$3.0.0/sub")) ∧
    (splitPackageIdAndSubpath "/@scope/pkg$1.0.0/lib/x" =
      ("@scope", "/pkg$1.0.0/lib/x")) := by
  refine ⟨?_, ?_, ?_, by rfl, by rfl, by rfl, by rfl⟩
  · intro f t frm? m sp sps r h1 h2 hsp hres
    simp only [show f + 2 = (f + 1) + 1 from rfl, resolve, h1, h2, if_false, hsp,
      searchPathsLoop, hres]
  · intro t frm? m bp hsl hb hbp
    simp [resolveInstalledModule, hsl, hb, hbp]
  · intro f t frm? m rp h1 h2 hsp hrim
    simp [resolve, h1, h2, hsp, searchPathsLoop, hrim]

/-- Witness for C2: with search path `/sp/` registered and a definition at
`/sp/foo`, the bare specifier `foo` resolves through the search-path prefix. -/
theorem c2_witness :
    resolve 3 "foo" none (⟨[("/sp/foo", Def.value (.prim 4))], [], [], [], [], ["/sp/"]⟩ : Meta) =
      .ok (some ("/sp/foo", Def.value (.prim 4))) :=
  c2_bare_resolution_order.1 1 "foo" none _ "/sp/" [] ("/sp/foo", Def.value (.prim 4))
    (by decide) (by decide) (by rfl) (by rfl)

end ClaimC2

section ClaimC3

open Lasso Scenario

theorem setOrSnoc_length (a : List String) (i : Nat) (x : String) :
    (setOrSnoc a i x).length = if i < a.length then a.length else a.length + 1 := by
  by_cases h : i < a.length <;> simp [setOrSnoc, h]

theorem setOrSnoc_get?_lt (a : List String) (i j : Nat) (x : String) (hle : i ≤ a.length)
    (h : j < i) : (setOrSnoc a i x).get? j = a.get? j := by
  by_cases hi : i < a.length
  · simp [setOrSnoc, hi, List.get?_eq_getElem?, List.getElem?_set_ne (Nat.ne_of_gt h)]
  · have hj : j < a.length := by omega
    simp [setOrSnoc, hi, List.get?_eq_getElem?, List.getElem?_append_left hj]

theorem setOrSnoc_get?_self (a : List String) (i : Nat) (x : String) (h : i ≤ a.length) :
    (setOrSnoc a i x).get? i = some x := by
  by_cases hi : i < a.length
  · simp [setOrSnoc, hi, List.get?_eq_getElem?, List.getElem?_set_self',
      List.getElem?_eq_getElem hi]
  · have : i = a.length := by omega
    subst this
    simp [setOrSnoc, List.get?_concat_length]

theorem normLoop_congr (l : List String) :
    ∀ (a1 a2 : List String) (len : Int),
      (∀ j : Nat, (j : Int) < len → a1.get? j = a2.get? j) →
      (0 ≤ len → len.toNat ≤ a1.length ∧ len.toNat ≤ a2.length) →
      (normLoop l a1 len).2 = (normLoop l a2 len).2 ∧
      (∀ j : Nat, (j : Int) < (normLoop l a1 len).2 →
        (normLoop l a1 len).1.get? j = (normLoop l a2 len).1.get? j) ∧
      (0 ≤ (normLoop l a1 len).2 →
        (normLoop l a1 len).2.toNat ≤ (normLoop l a1 len).1.length ∧
        (normLoop l a1 len).2.toNat ≤ (normLoop l a2 len).1.length) := by
  induction l with
  | nil =>
    intro a1 a2 len hag hlen
    exact ⟨rfl, hag, hlen⟩
  | cons p l ih =>
    intro a1 a2 len hag hlen
    by_cases hp : p = "."
    · simpa [normLoop, hp] using ih a1 a2 len hag hlen
    · by_cases hpp : p = ".."
      · have hag' : ∀ j : Nat, (j : Int) < len - 1 → a1.get? j = a2.get? j :=
          fun j hj => hag j (by omega)
        have hlen' : 0 ≤ len - 1 → (len - 1).toNat ≤ a1.length ∧ (len - 1).toNat ≤ a2.length := by
          intro h
          have := hlen (by omega)
          omega
        simpa [normLoop, hp, hpp] using ih a1 a2 (len - 1) hag' hlen'
      · by_cases h0 : 0 ≤ len
        · have hl := hlen h0
          have hag' : ∀ j : Nat, (j : Int) < len + 1 →
              (setOrSnoc a1 len.toNat p).get? j = (setOrSnoc a2 len.toNat p).get? j := by
            intro j hj
            by_cases hje : j = len.toNat
            · subst hje
              rw [setOrSnoc_get?_self a1 _ _ hl.1, setOrSnoc_get?_self a2 _ _ hl.2]
            · have hjlt : j < len.toNat := by omega
              rw [setOrSnoc_get?_lt a1 _ _ _ hl.1 hjlt, setOrSnoc_get?_lt a2 _ _ _ hl.2 hjlt]
              exact hag j (by omega)
          have hlen' : 0 ≤ len + 1 →
              (len + 1).toNat ≤ (setOrSnoc a1 len.toNat p).length ∧
              (len + 1).toNat ≤ (setOrSnoc a2 len.toNat p).length := by
            intro _
            rw [setOrSnoc_length, setOrSnoc_length]
            constructor
            · by_cases hc : len.toNat < a1.length <;> simp [hc] <;> omega
            · by_cases hc : len.toNat < a2.length <;> simp [hc] <;> omega
          simpa [normLoop, hp, hpp, h0] using
            ih (setOrSnoc a1 len.toNat p) (setOrSnoc a2 len.toNat p) (len + 1) hag' hlen'
        · have hag' : ∀ j : Nat, (j : Int) < len + 1 → a1.get? j = a2.get? j :=
            fun j hj => absurd hj (by omega)
          have hlen' : 0 ≤ len + 1 → (len + 1).toNat ≤ a1.length ∧ (len + 1).toNat ≤ a2.length := by
            intro h
            have : (len + 1).toNat = 0 := by omega
            omega
          simpa [normLoop, hp, hpp, h0] using ih a1 a2 (len + 1) hag' hlen'

theorem take_congr_of_get? (a1 a2 : List String) (n : Nat)
    (h : ∀ j : Nat, j < n → a1.get? j = a2.get? j) : a1.take n = a2.take n := by
  apply List.ext_get?
  intro j
  by_cases hj : j < n
  · rw [List.get?_take hj, List.get?_take hj]
    exact h j hj
  · have h1 : (a1.take n).get? j = none :=
      List.get?_eq_none.mpr (le_trans (List.length_take_le n a1) (by omega))
    have h2 : (a2.take n).get? j = none :=
      List.get?_eq_none.mpr (le_trans (List.length_take_le n a2) (by omega))
    rw [h1, h2]

theorem normPost_congr (r1 r2 : List String × Int) (hL : r1.2 = r2.2)
    (hA : ∀ j : Nat, (j : Int) < r1.2 → r1.1.get? j = r2.1.get? j) :
    normPost r1 = normPost r2 := by
  unfold normPost
  rw [← hL]
  by_cases h1 : r1.2 = 1
  · simp [h1]
  · by_cases h2 : 2 < r1.2
    · have hcast : (((r1.2 - 1).toNat : Int)) < r1.2 := by omega
      rw [hA (r1.2 - 1).toNat hcast]
      by_cases hcond : 2 < r1.2 ∧ ((r2.1.get? (r1.2 - 1).toNat).getD "*") = ""
      · have htake : r1.1.take (r1.2 - 1).toNat = r2.1.take (r1.2 - 1).toNat := by
          apply take_congr_of_get?
          intro j hj
          exact hA j (by omega)
        rw [show (r1.2 - 1).toNat = r1.2.toNat - 1 by omega] at htake
        simp only [h1, if_false, hcond, if_true, if_pos]
        by_cases hneg : r1.2 - 1 < 0
        · simp [hneg]
        · simp [hneg, htake]
      · have htake : r1.1.take r1.2.toNat = r2.1.take r1.2.toNat := by
          apply take_congr_of_get?
          intro j hj
          exact hA j (by omega)
        simp only [h1, if_false, hcond, if_neg, if_false]
        by_cases hneg : r1.2 < 0
        · simp [hneg]
        · simp [hneg, htake]
    · have hc1 : ¬(2 < r1.2 ∧ ((r1.1.get? (r1.2 - 1).toNat).getD "*") = "") := fun h => h2 h.1
      have hc2 : ¬(2 < r1.2 ∧ ((r2.1.get? (r1.2 - 1).toNat).getD "*") = "") := fun h => h2 h.1
      simp only [h1, if_false, hc1, hc2, if_neg, if_false]
      by_cases hneg : r1.2 < 0
      · simp [hneg]
      · have htake : r1.1.take r1.2.toNat = r2.1.take r1.2.toNat := by
          apply take_congr_of_get?
          intro j hj
          exact hA j (by omega)
        simp [hneg, htake]

theorem normFrom_congr (l : List String) (a1 a2 : List String) (len : Int)
    (hag : ∀ j : Nat, (j : Int) < len → a1.get? j = a2.get? j)
    (hlen : 0 ≤ len → len.toNat ≤ a1.length ∧ len.toNat ≤ a2.length) :
    normFrom l a1 len = normFrom l a2 len := by
  obtain ⟨hL, hA, _⟩ := normLoop_congr l a1 a2 len hag hlen
  exact normPost_congr _ _ hL hA

end ClaimC3

section ClaimC3b

open Lasso Scenario

theorem normLoop_dot (l1 : List String) :
    ∀ (l2 acc : List String) (len : Int),
      normLoop (l1 ++ "." :: l2) acc len = normLoop (l1 ++ l2) acc len := by
  induction l1 with
  | nil =>
    intro l2 acc len
    simp [normLoop]
  | cons p l1 ih =>
    intro l2 acc len
    by_cases hp : p = "."
    · simp [normLoop, hp, ih]
    · by_cases hpp : p = ".."
      · simp [normLoop, hp, hpp, ih]
      · simp [normLoop, hp, hpp, ih]

theorem normFrom_pop (l1 : List String) :
    ∀ (x : String) (l2 acc : List String) (len : Int),
      x ≠ "." → x ≠ ".." →
      (0 ≤ len → len.toNat ≤ acc.length) →
      normFrom (l1 ++ x :: ".." :: l2) acc len = normFrom (l1 ++ l2) acc len := by
  induction l1 with
  | nil =>
    intro x l2 acc len hx hxx hinv
    by_cases h0 : 0 ≤ len
    · have hstep : normFrom ([] ++ x :: ".." :: l2) acc len =
          normFrom l2 (setOrSnoc acc len.toNat x) len := by
        simp [normFrom, normLoop, hx, hxx, h0]
      rw [hstep]
      apply normFrom_congr
      · intro j hj
        exact setOrSnoc_get?_lt acc _ _ _ (hinv h0) (by omega)
      · intro _
        refine ⟨?_, hinv h0⟩
        rw [setOrSnoc_length]
        by_cases hc : len.toNat < acc.length <;> simp [hc] <;> omega
    · simp [normFrom, normLoop, hx, hxx, h0]
  | cons p l1 ih =>
    intro x l2 acc len hx hxx hinv
    by_cases hp : p = "."
    · simpa [normFrom, normLoop, hp] using ih x l2 acc len hx hxx hinv
    · by_cases hpp : p = ".."
      · have hinv' : 0 ≤ len - 1 → (len - 1).toNat ≤ acc.length := by
          intro h
          have := hinv (by omega)
          omega
        simpa [normFrom, normLoop, hp, hpp] using ih x l2 acc (len - 1) hx hxx hinv'
      · by_cases h0 : 0 ≤ len
        · have hinv' : 0 ≤ len + 1 → (len + 1).toNat ≤ (setOrSnoc acc len.toNat p).length := by
            intro _
            rw [setOrSnoc_length]
            have := hinv h0
            by_cases hc : len.toNat < acc.length <;> simp [hc] <;> omega
          simpa [normFrom, normLoop, hp, hpp, h0] using
            ih x l2 (setOrSnoc acc len.toNat p) (len + 1) hx hxx hinv'
        · have hinv' : 0 ≤ len + 1 → (len + 1).toNat ≤ acc.length := by
            intro h
            have : (len + 1).toNat = 0 := by omega
            omega
          simpa [normFrom, normLoop, hp, hpp, h0] using ih x l2 acc (len + 1) hx hxx hinv'

theorem normLoop_clean (l : List String) :
    ∀ acc : List String, (∀ x ∈ l, x ≠ "." ∧ x ≠ "..") →
      normLoop l acc (acc.length : Int) = (acc ++ l, (acc.length : Int) + l.length) := by
  induction l with
  | nil =>
    intro acc _
    simp [normLoop]
  | cons p l ih =>
    intro acc hcl
    obtain ⟨h1, h2⟩ := hcl p (by simp)
    have hset : setOrSnoc acc acc.length p = acc ++ [p] := by
      simp [setOrSnoc]
    have hstep : normLoop (p :: l) acc (acc.length : Int) =
        normLoop l (acc ++ [p]) ((acc.length : Int) + 1) := by
      simp [normLoop, h1, h2, hset]
    rw [hstep]
    have hlen : ((acc ++ [p]).length : Int) = (acc.length : Int) + 1 := by
      simp
    have := ih (acc ++ [p]) (fun x hx => hcl x (by simp [hx]))
    rw [hlen] at this
    rw [this, List.append_assoc]
    simp only [List.singleton_append, List.length_cons, Prod.mk.injEq, true_and]
    push_cast
    ring

end ClaimC3b

section ClaimC3c

open Lasso Scenario

theorem normPost_no_collapse (acc : List String) (L : Int) (hL1 : L ≠ 1) (hL0 : 0 ≤ L)
    (hc : ¬(2 < L ∧ ((acc.get? (L - 1).toNat).getD "*") = "")) :
    normPost (acc, L) = .ok (String.intercalate "/" (acc.take L.toNat)) := by
  have hneg : ¬(L < 0) := by omega
  show (if L = 1 then (Except.ok "/" : Except JsErr String)
    else if (if 2 < L ∧ ((acc.get? (L - 1).toNat).getD "*") = "" then L - 1 else L) < 0 then
      .error .rangeError
    else .ok (String.intercalate "/"
      (acc.take (if 2 < L ∧ ((acc.get? (L - 1).toNat).getD "*") = "" then L - 1 else L).toNat))) =
    .ok (String.intercalate "/" (acc.take L.toNat))
  rw [if_neg hL1, if_neg hc, if_neg hneg]

theorem normPost_collapse (acc : List String) (L : Int) (hL1 : L ≠ 1)
    (h2 : 2 < L) (hend : ((acc.get? (L - 1).toNat).getD "*") = "") :
    normPost (acc, L) = .ok (String.intercalate "/" (acc.take (L - 1).toNat)) := by
  have hc : 2 < L ∧ ((acc.get? (L - 1).toNat).getD "*") = "" := ⟨h2, hend⟩
  have hneg : ¬(L - 1 < 0) := by omega
  show (if L = 1 then (Except.ok "/" : Except JsErr String)
    else if (if 2 < L ∧ ((acc.get? (L - 1).toNat).getD "*") = "" then L - 1 else L) < 0 then
      .error .rangeError
    else .ok (String.intercalate "/"
      (acc.take (if 2 < L ∧ ((acc.get? (L - 1).toNat).getD "*") = "" then L - 1 else L).toNat))) =
    .ok (String.intercalate "/" (acc.take (L - 1).toNat))
  rw [if_neg hL1, if_pos hc, if_neg hneg]

theorem normalize_trailing_single (xs : List String) (hlen : 1 ≤ xs.length)
    (hcl : ∀ x ∈ xs, x ≠ "." ∧ x ≠ ".." ∧ x ≠ "") :
    normalizePathParts ("" :: (xs ++ [""])) = normalizePathParts ("" :: xs) := by
  have hclL : ∀ x ∈ ("" :: (xs ++ [""])), x ≠ "." ∧ x ≠ ".." := by
    intro x hx
    rcases List.mem_cons.mp hx with h | h
    · subst h
      exact ⟨by decide, by decide⟩
    · rcases List.mem_append.mp h with h3 | h3
      · exact ⟨(hcl x h3).1, (hcl x h3).2.1⟩
      · have := List.mem_singleton.mp h3
        subst this
        exact ⟨by decide, by decide⟩
  have hclR : ∀ x ∈ ("" :: xs), x ≠ "." ∧ x ≠ ".." := by
    intro x hx
    rcases List.mem_cons.mp hx with h | h
    · subst h
      exact ⟨by decide, by decide⟩
    · exact ⟨(hcl x h).1, (hcl x h).2.1⟩
  have hLloop := normLoop_clean ("" :: (xs ++ [""])) [] hclL
  have hRloop := normLoop_clean ("" :: xs) [] hclR
  simp only [List.length_nil, Nat.cast_zero, zero_add, List.nil_append, List.length_cons,
    List.length_append, List.length_singleton] at hLloop hRloop
  unfold normalizePathParts
  rw [hLloop, hRloop]
  have hLeft : normPost ("" :: (xs ++ [""]), ((xs.length + 1 + 1 : Nat) : Int)) =
      .ok (String.intercalate "/" ("" :: xs)) := by
    have hend : ((("" :: (xs ++ [""])).get? (((xs.length + 1 + 1 : Nat) : Int) - 1).toNat).getD "*") = "" := by
      have hidx : (((xs.length + 1 + 1 : Nat) : Int) - 1).toNat = xs.length + 1 := by omega
      rw [hidx]
      simp only [List.get?_cons_succ]
      rw [List.get?_concat_length]
      rfl
    rw [normPost_collapse _ _ (by omega) (by push_cast; omega) hend]
    have hidx2 : (((xs.length + 1 + 1 : Nat) : Int) - 1).toNat = xs.length + 1 := by omega
    rw [hidx2]
    have htake : ("" :: (xs ++ [""])).take (xs.length + 1) = "" :: xs := by
      rw [List.take_succ_cons, List.take_left]
    rw [htake]
  have hRight : normPost ("" :: xs, ((xs.length + 1 : Nat) : Int)) =
      .ok (String.intercalate "/" ("" :: xs)) := by
    by_cases hn : xs.length = 1
    · have hc : ¬(2 < ((xs.length + 1 : Nat) : Int) ∧
          ((("" :: xs).get? (((xs.length + 1 : Nat) : Int) - 1).toNat).getD "*") = "") := by
        intro h
        have := h.1
        omega
      rw [normPost_no_collapse _ _ (by omega) (by omega) hc]
      have hidx : (((xs.length + 1 : Nat) : Int)).toNat = ("" :: xs).length := by
        simp
      rw [hidx, List.take_length]
    · have hn2 : 2 ≤ xs.length := by omega
      obtain ⟨m, hm⟩ : ∃ m, xs.length = m + 1 := ⟨xs.length - 1, by omega⟩
      have hidx : ((((xs.length + 1 : Nat) : Int)) - 1).toNat = m + 1 := by omega
      have hget : ("" :: xs).get? (m + 1) = xs.get? m := List.get?_cons_succ
      obtain ⟨y, hy⟩ : ∃ y, xs.get? m = some y := by
        have hmlt : m < xs.length := by omega
        exact ⟨_, List.get?_eq_get hmlt⟩
      have hymem : y ∈ xs := List.get?_mem hy
      have hyne : y ≠ "" := (hcl y hymem).2.2
      have hc : ¬(2 < ((xs.length + 1 : Nat) : Int) ∧
          ((("" :: xs).get? (((xs.length + 1 : Nat) : Int) - 1).toNat).getD "*") = "") := by
        intro h
        have h2 := h.2
        rw [hidx, hget, hy] at h2
        exact hyne h2
      rw [normPost_no_collapse _ _ (by omega) (by omega) hc]
      have hidx2 : (((xs.length + 1 : Nat) : Int)).toNat = ("" :: xs).length := by
        simp
      rw [hidx2, List.take_length]
  rw [hLeft, hRight]

end ClaimC3c

section ClaimC3d

open Lasso Scenario

/-- C3 counterexample: the normalizer collapses only a single trailing empty
segment (`len--` happens at most once), so joining `/p` with `./a//` yields
`/p/a/` — a path still carrying a trailing empty segment — where the claim's
"trailing empty segments are collapsed" would give `/p/a`. -/
theorem c3_counterexample :
    join "/p" "./a//" = .ok "/p/a/" ∧ ("/p/a/" : String) ≠ "/p/a" :=
  ⟨by rfl, by decide⟩

/-- C3 (amended): a relative specifier (leading `.`) is joined against the
requesting module's directory and normalized, an absolute specifier (leading
`/`) is normalized only, without joining; in the normalization each `..` pops
the preceding path segment, each `.` is elided, and a single trailing empty
segment is collapsed (when several trailing empty segments are present, only
one is removed); `./a` from directory `/pkg$1.0.0/lib` gives
`/pkg$1.0.0/lib/a` and `../other` from it gives `/pkg$1.0.0/other`. -/
theorem c3_relative_resolution :
    (∀ (f : Nat) (t frm : String) (m : Meta), jsCharAt t 0 = some '.' →
      resolve (f + 1) t (some frm) m =
        match join frm t with
        | .error e => .error e
        | .ok rp => finishResolve rp m) ∧
    (∀ (f : Nat) (t : String) (frm? : Option String) (m : Meta), jsCharAt t 0 = some '/' →
      resolve (f + 1) t frm? m =
        match normalizePathParts (splitSlash t) with
        | .error e => .error e
        | .ok rp => finishResolve rp m) ∧
    (∀ l1 l2 : List String,
      normalizePathParts (l1 ++ "." :: l2) = normalizePathParts (l1 ++ l2)) ∧
    (∀ (l1 : List String) (x : String) (l2 : List String), x ≠ "." → x ≠ ".." →
      normalizePathParts (l1 ++ x :: ".." :: l2) = normalizePathParts (l1 ++ l2)) ∧
    (∀ xs : List String, 1 ≤ xs.length → (∀ x ∈ xs, x ≠ "." ∧ x ≠ ".." ∧ x ≠ "") →
      normalizePathParts ("" :: (xs ++ [""])) = normalizePathParts ("" :: xs)) ∧
    join "/pkg$1.0.0/lib" "./a" = .ok "/pkg$1.0.0/lib/a" ∧
    join "/pkg$1.0.0/lib" "../other" = .ok "/pkg$1.0.0/other" := by
  refine ⟨?_, ?_, ?_, ?_, normalize_trailing_single, by rfl, by rfl⟩
  · intro f t frm m h
    simp [resolve, h]
  · intro f t frm? m h
    have hne : ¬(jsCharAt t 0 = some '.') := by
      rw [h]
      decide
    simp [resolve, h, hne]
  · intro l1 l2
    unfold normalizePathParts
    rw [normLoop_dot]
  · intro l1 x l2 hx hxx
    rw [normalizePathParts_eq_normFrom, normalizePathParts_eq_normFrom]
    exact normFrom_pop l1 x l2 [] 0 hx hxx (by simp)

/-- Witness for C3: a concrete `..` pop, `/p/lib/../other` normalizing to
`/p/other`. -/
theorem c3_witness :
    normalizePathParts (["", "p"] ++ "lib" :: ".." :: ["other"]) =
      normalizePathParts (["", "p"] ++ ["other"]) :=
  c3_relative_resolution.2.2.2.1 ["", "p"] "lib" ["other"] (by decide) (by decide)

end ClaimC3d

section ClaimC5

open Lasso Scenario

/-- C5: `run` with waiting requested (the default) while the page is not
ready enqueues the entry instead of executing it; `ready()` sets the ready
flag and drains the queue in FIFO order (in the three-entry scenario the
modules load in queue order, witnessed by their exports objects being
allocated at heap references 0, 1, 2); when a drained module flips readiness
off again (by registering a pending job), the entries not yet executed are
not executed in that drain and are preserved, in order, in the queue; the
next ready transition (here: the pending job completing) executes them. -/
theorem c5_run_queue :
    (∀ (rf : Nat) (p : String) (o : Option Bool) (s : RState),
      waitOf o = true → s.ready = false →
      runF rf p o s = (.ok (), { s with runQueue := s.runQueue ++ [(p, o)] })) ∧
    (c5bS1.runQueue =
      [("/e1$1.0.0/index", none), ("/e2$1.0.0/index", none), ("/e3$1.0.0/index", none)] ∧
     (readyF 6 4 c5bS1).1 = .ok () ∧
     (lookupA "/e1$1.0.0/index" (readyF 6 4 c5bS1).2.instanceCache).map Module.exports =
       some (.ref 0) ∧
     (lookupA "/e2$1.0.0/index" (readyF 6 4 c5bS1).2.instanceCache).map Module.exports =
       some (.ref 1) ∧
     (lookupA "/e3$1.0.0/index" (readyF 6 4 c5bS1).2.instanceCache).map Module.exports =
       some (.ref 2) ∧
     (readyF 6 4 c5bS1).2.runQueue = [] ∧
     (readyF 6 4 c5bS1).2.ready = true) ∧
    (c5S1.runQueue =
      [("/e1$1.0.0/index", none), ("/e2$1.0.0/index", none), ("/e3$1.0.0/index", none)] ∧
     (readyF 6 4 c5S1).1 = .ok () ∧
     (readyF 6 4 c5S1).2.ready = false ∧
     (readyF 6 4 c5S1).2.runQueue = [("/e2$1.0.0/index", none), ("/e3$1.0.0/index", none)] ∧
     (lookupA "/e1$1.0.0/index" (readyF 6 4 c5S1).2.instanceCache).isSome = true ∧
     lookupA "/e2$1.0.0/index" (readyF 6 4 c5S1).2.instanceCache = none ∧
     lookupA "/e3$1.0.0/index" (readyF 6 4 c5S1).2.instanceCache = none) ∧
    ((pendingDone 6 4 (readyF 6 4 c5S1).2).2.runQueue = [] ∧
     (pendingDone 6 4 (readyF 6 4 c5S1).2).2.ready = true ∧
     (lookupA "/e2$1.0.0/index" (pendingDone 6 4 (readyF 6 4 c5S1).2).2.instanceCache).isSome =
       true ∧
     (lookupA "/e3$1.0.0/index" (pendingDone 6 4 (readyF 6 4 c5S1).2).2.instanceCache).isSome =
       true) := by
  refine ⟨?_, by decide, by decide, by decide⟩
  intro rf p o s hw hr
  simp [runF, hw, hr]

/-- Witness for C5: a `run` of entry `e1` in the not-ready initial state
enqueues it rather than executing it. -/
theorem c5_witness :
    runF 6 "/e1$1.0.0/index" none c5S0 =
      (.ok (), { c5S0 with runQueue := c5S0.runQueue ++ [("/e1$1.0.0/index", none)] }) :=
  c5_run_queue.1 6 "/e1$1.0.0/index" none c5S0 (by decide) (by decide)

end ClaimC5

section ClaimC7

open Lasso Marko Scenario

theorem upsertA_upsertA {κ β : Type} [DecidableEq κ] (k : κ) (v w : β)
    (l : List (κ × β)) : upsertA k v (upsertA k w l) = upsertA k v l := by
  induction l with
  | nil => simp [upsertA]
  | cons p rest ih => by_cases h : k = p.1 <;> simp [upsertA, h, ih]

/-- C7: with no batch active, marking a component dirty appends it to the
shared unbatched queue and schedules the deferred flush at most once
(repeated dirtying before the flush schedules no second `nextTick`); the
flush processes the entire queue including entries appended during
processing, then clears it and resets the scheduled flag (shown on the
two-component scenario where component 1's update handlers dirty component
2); consequently a component whose `setState` runs twice synchronously
within one tick undergoes exactly one update pass, reflecting the final
state. -/
theorem c7_unbatched_update_batching :
    (∀ (cid : Nat) (ms : MState), ms.batchStack = [] → ms.updatesScheduled = false →
      queueComponentUpdate cid ms =
        { ms with updatesScheduled := true, nextTickCount := ms.nextTickCount + 1,
                  unbatchedQueue := ms.unbatchedQueue ++ [cid] }) ∧
    (∀ (cid : Nat) (ms : MState), ms.batchStack = [] → ms.updatesScheduled = true →
      queueComponentUpdate cid ms =
        { ms with unbatchedQueue := ms.unbatchedQueue ++ [cid] }) ∧
    ((updateUnbatchedComponents 5 c7MS).map
        (fun ms => (ms.unbatchedQueue, ms.updatesScheduled, ms.nextTickCount,
          (lookupA 1 ms.comps).map UComp.renderCount,
          (lookupA 2 ms.comps).map UComp.renderCount,
          (lookupA 2 ms.comps).map UComp.rendered)) =
      some ([], false, 1, some 1, some 1, some (some [("x", 5)]))) ∧
    (∀ (cid : Nat) (ms : MState) (c : UComp) (f : String) (v1 v2 : Nat) (fuel : Nat),
      lookupA cid ms.comps = some c →
      c.destroyed = false → c.queued = false → c.sDirty = false → c.effects = [] →
      ms.batchStack = [] → ms.updatesScheduled = false → ms.unbatchedQueue = [] →
      lookupA f c.stateMap ≠ some v1 → v1 ≠ v2 →
      (setState cid f v2 (setState cid f v1 ms)).nextTickCount = ms.nextTickCount + 1 ∧
      (setState cid f v2 (setState cid f v1 ms)).unbatchedQueue = [cid] ∧
      updateUnbatchedComponents (fuel + 2) (setState cid f v2 (setState cid f v1 ms)) =
        some { ms with
          comps := upsertA cid
            (⟨false, false, false, upsertA f v2 c.stateMap,
              some (upsertA f v2 c.stateMap), c.renderCount + 1, c.effects⟩ : UComp) ms.comps,
          updatesScheduled := false,
          nextTickCount := ms.nextTickCount + 1,
          unbatchedQueue := [] } ∧
      lookupA f (upsertA f v2 c.stateMap) = some v2) := by
  refine ⟨?_, ?_, by rfl, ?_⟩
  · intro cid ms hb hs
    simp [queueComponentUpdate, hb, scheduleUpdates, hs]
  · intro cid ms hb hs
    simp [queueComponentUpdate, hb, scheduleUpdates, hs]
  · intro cid ms c f v1 v2 fuel hc hdes hq hdirty heff hbatch hsched hqueue hne hvne
    obtain ⟨comps, us, bs, uq, ntc⟩ := ms
    simp only at hc hbatch hsched hqueue
    subst hbatch hsched hqueue
    obtain ⟨cq, cd, cdy, csm, crend, crc, ceff⟩ := c
    simp only at hdes hq hdirty heff hne
    subst hdes hq hdirty heff
    have hms1 : setState cid f v1 ⟨comps, false, [], [], ntc⟩ =
        ⟨upsertA cid (⟨true, false, true, upsertA f v1 csm, crend, crc, []⟩ : UComp) comps,
          true, [], [cid], ntc + 1⟩ := by
      simp [setState, hc, hne, compQueueUpdate, lookupA_upsertA_self, queueComponentUpdate,
        scheduleUpdates, upsertA_upsertA]
    rw [hms1]
    have hlk1 : lookupA f (upsertA f v1 csm) = some v1 := lookupA_upsertA_self f v1 csm
    have hne2 : ¬(lookupA f (upsertA f v1 csm) = some v2) := by
      rw [hlk1]
      intro hcon
      exact hvne (Option.some.inj hcon)
    have hms2 : setState cid f v2
        (⟨upsertA cid (⟨true, false, true, upsertA f v1 csm, crend, crc, []⟩ : UComp) comps,
          true, [], [cid], ntc + 1⟩ : MState) =
        ⟨upsertA cid (⟨true, false, true, upsertA f v2 csm, crend, crc, []⟩ : UComp) comps,
          true, [], [cid], ntc + 1⟩ := by
      simp [setState, lookupA_upsertA_self, hvne, upsertA_upsertA]
    rw [hms2]
    refine ⟨rfl, rfl, ?_, lookupA_upsertA_self f v2 csm⟩
    have hcomp : compUpdate cid
        (⟨upsertA cid (⟨true, false, true, upsertA f v2 csm, crend, crc, []⟩ : UComp) comps,
          true, [], [cid], ntc + 1⟩ : MState) =
        ⟨upsertA cid (⟨false, false, false, upsertA f v2 csm,
            some (upsertA f v2 csm), crc + 1, []⟩ : UComp) comps,
          true, [], [cid], ntc + 1⟩ := by
      simp [compUpdate, lookupA_upsertA_self, applyEffects, upsertA_upsertA]
    simp [updateUnbatchedComponents, updateComponentsLoop, hcomp, List.get]

/-- Witness for C7: queueing a dirty component in the empty manager state
appends it and schedules the single flush. -/
theorem c7_witness :
    queueComponentUpdate 3 (⟨[], false, [], [], 0⟩ : MState) =
      (⟨[], true, [], [3], 1⟩ : MState) :=
  c7_unbatched_update_batching.1 3 ⟨[], false, [], [], 0⟩ (by decide) (by decide)

end ClaimC7

section ClaimC8

open Lasso Marko Scenario

theorem lookupA_eq_none_of_not_mem {κ β : Type} [DecidableEq κ] (k : κ) (l : List (κ × β))
    (h : ¬k ∈ l.map Prod.fst) : lookupA k l = none := by
  induction l with
  | nil => rfl
  | cons p rest ih =>
    simp only [List.map_cons, List.mem_cons] at h
    push_neg at h
    simp [lookupA, h.1, ih h.2]

theorem lookupA_deleteA_none {κ β : Type} [DecidableEq κ] (k : κ) (l : List (κ × β))
    (hnd : (l.map Prod.fst).Nodup) : lookupA k (deleteA k l) = none := by
  induction l with
  | nil => rfl
  | cons p rest ih =>
    simp only [List.map_cons, List.nodup_cons] at hnd
    by_cases h : k = p.1
    · subst h
      simp only [deleteA, if_pos rfl]
      exact lookupA_eq_none_of_not_mem _ _ hnd.1
    · simp [deleteA, lookupA, h, ih hnd.2]

theorem lifecycleDestroy_comps (k : Nat) (s : CState) :
    (lifecycleDestroy k s).comps =
      match lookupA k s.comps with
      | none => s.comps
      | some c =>
        if c.destroyed then s.comps
        else upsertA k
          { c with destroyed := true, root := none, domHandles := none, subs := none } s.comps := by
  unfold lifecycleDestroy
  cases hk : lookupA k s.comps with
  | none => rfl
  | some c =>
    by_cases hd : c.destroyed
    · simp [hd]
    · simp only [hd, if_false]
      cases c.root <;> cases c.domHandles <;> cases c.subs <;> rfl

theorem lookupA_lifecycleDestroy_keep (k cref : Nat) (s : CState) (c : DComp)
    (hc : lookupA cref s.comps = some c) (hd : c.destroyed = true) :
    lookupA cref (lifecycleDestroy k s).comps = some c := by
  rw [lifecycleDestroy_comps]
  cases hk : lookupA k s.comps with
  | none => exact hc
  | some ck =>
    by_cases hkd : ck.destroyed
    · simp [hkd, hc]
    · have hkne : cref ≠ k := by
        intro he
        subst he
        rw [hk] at hc
        injection hc with he2
        subst he2
        rw [hd] at hkd
        exact hkd rfl
      simp only [hkd, Bool.false_eq_true, if_false]
      rw [lookupA_upsertA_ne _ _ hkne]
      exact hc

theorem destroyDropLookup_keep (k cref : Nat) (s : CState) (c : DComp)
    (hc : lookupA cref s.comps = some c) :
    lookupA cref (destroyDropLookup k s).comps = some c := by
  unfold destroyDropLookup
  cases h2 : lookupA k s.comps with
  | none => exact hc
  | some c2 => exact hc

theorem destroyNodeRecursiveM_keep (n cref : Nat) (s : CState) (c : DComp)
    (hc : lookupA cref s.comps = some c) (hd : c.destroyed = true) :
    lookupA cref (destroyNodeRecursiveM n s).comps = some c := by
  unfold destroyNodeRecursiveM
  cases hm : lookupA n s.compsByDOMNode with
  | none => exact hc
  | some o =>
    cases o with
    | none => exact hc
    | some k =>
      exact destroyDropLookup_keep k cref _ c
        (lookupA_lifecycleDestroy_keep k cref s c hc hd)

theorem detachNode_keep (n cref : Nat) (s : CState) (c : DComp)
    (hc : lookupA cref s.comps = some c) (hd : c.destroyed = true) :
    lookupA cref (detachNode s n).comps = some c := by
  unfold detachNode
  have h1 := destroyNodeRecursiveM_keep n cref s c hc hd
  simp only [eventDelegation_a]
  exact h1

theorem foldl_detach_keep (nodes : List Nat) :
    ∀ (s : CState) (cref : Nat) (c : DComp), lookupA cref s.comps = some c →
      c.destroyed = true →
      lookupA cref (nodes.foldl detachNode s).comps = some c := by
  induction nodes with
  | nil =>
    intro s cref c hc _
    exact hc
  | cons n ns ih =>
    intro s cref c hc hd
    rw [List.foldl_cons]
    exact ih _ cref c (detachNode_keep n cref s c hc hd) hd

theorem fold_detach_no_comp (nodes : List Nat) :
    ∀ s : CState,
      (∀ n ∈ nodes, lookupA n s.compsByDOMNode = none ∨
        lookupA n s.compsByDOMNode = some none) →
      nodes.foldl detachNode s =
        { s with attached := s.attached.filter (fun x => ¬x ∈ nodes) } := by
  induction nodes with
  | nil =>
    intro s _
    simp
  | cons n ns ih =>
    intro s h
    have hstep : detachNode s n = { s with attached := s.attached.filter (fun x => ¬x = n) } := by
      rcases h n (by simp) with h1 | h1 <;>
        simp [detachNode, destroyNodeRecursiveM, h1, eventDelegation_a]
    rw [List.foldl_cons, hstep]
    have ih' := ih { s with attached := s.attached.filter (fun x => ¬x = n) }
      (fun x hx => h x (by simp [hx]))
    rw [ih']
    congr 1
    rw [List.filter_filter]
    apply List.filter_congr
    intro x _
    simp only [List.mem_cons, decide_not]
    cases hxe : decide (x = n) <;> cases hxm : decide (x ∈ ns) <;>
      simp_all

theorem destroyC_destroyed (s : CState) (cref : Nat) (c : DComp)
    (hc : lookupA cref s.comps = some c) (hd : c.destroyed = false) :
    ∃ c', lookupA cref (destroyC cref s).comps = some c' ∧ c'.destroyed = true := by
  have hc1 : lookupA cref (lifecycleDestroy cref s).comps =
      some { c with destroyed := true, root := none, domHandles := none, subs := none } := by
    rw [lifecycleDestroy_comps, hc]
    simp [hd, lookupA_upsertA_self]
  unfold destroyC
  rw [hc]
  simp only [hd, Bool.false_eq_true, if_false]
  cases hroot : c.root with
  | none =>
    exact ⟨_, hc1, rfl⟩
  | some rr =>
    have hc2 := foldl_detach_keep
      (match lookupA rr (lifecycleDestroy cref s).roots with
        | some rn => rn.nodes
        | none => []) (lifecycleDestroy cref s) cref _ hc1 rfl
    dsimp only
    rw [hc2]
    exact ⟨_, lookupA_upsertA_self _ _ _, rfl⟩

/-- C8: `destroy` is idempotent — destroying twice equals destroying once
(unconditionally), and an already-destroyed component is a no-op guarded by
the destroyed flag; a successful first destroy emits the `destroy` lifecycle
event exactly once, unsubscribes every listener registered through the
component's subscription tracker (and every DOM listener handle), detaches
the component's DOM nodes, and removes the component's id from the global
component lookup (no stale entry remains), leaving the component record
flagged destroyed with its keyed-element map cleared and its root marked
detached. -/
theorem c8_destroy_idempotent :
    (∀ (s : CState) (cref : Nat), destroyC cref (destroyC cref s) = destroyC cref s) ∧
    (∀ (s : CState) (cref : Nat) (c : DComp), lookupA cref s.comps = some c →
      c.destroyed = true → destroyC cref s = s) ∧
    (∀ (s : CState) (cref : Nat) (c : DComp) (rr : Nat) (rn : RootNode)
        (subsL dh : List Nat),
      lookupA cref s.comps = some c → c.destroyed = false →
      c.root = some rr → c.subs = some subsL → c.domHandles = some dh →
      lookupA rr s.roots = some rn →
      (∀ n ∈ rn.nodes, lookupA n s.compsByDOMNode = none) →
      (s.componentLookup.map Prod.fst).Nodup →
      (destroyC cref s).events = s.events ++ [(c.id, "destroy")] ∧
      (destroyC cref s).activeSubs = s.activeSubs.filter (fun x => ¬x ∈ subsL) ∧
      (destroyC cref s).activeDomListeners = s.activeDomListeners.filter (fun x => ¬x ∈ dh) ∧
      (destroyC cref s).attached = s.attached.filter (fun x => ¬x ∈ rn.nodes) ∧
      lookupA c.id (destroyC cref s).componentLookup = none ∧
      lookupA cref (destroyC cref s).comps =
        some { c with destroyed := true, root := none, domHandles := none,
                      subs := none, keyed := [] } ∧
      lookupA rr (destroyC cref s).roots = some (⟨rn.nodes, true⟩ : RootNode)) := by
  refine ⟨?_, ?_, ?_⟩
  · intro s cref
    cases hc : lookupA cref s.comps with
    | none =>
      have h0 : destroyC cref s = s := by
        unfold destroyC
        rw [hc]
      rw [h0]
      exact h0
    | some c =>
      cases hcd : c.destroyed with
      | true =>
        have h0 : destroyC cref s = s := by
          unfold destroyC
          rw [hc]
          simp [hcd]
        rw [h0]
        exact h0
      | false =>
        obtain ⟨c', hc', hd'⟩ := destroyC_destroyed s cref c hc hcd
        set t := destroyC cref s with ht
        unfold destroyC
        rw [hc']
        simp [hd']
  · intro s cref c hc hd
    unfold destroyC
    rw [hc]
    simp [hd]
  · intro s cref c rr rn subsL dh hc hd hroot hsubs hdh hrn hnm hnd
    obtain ⟨comps, clook, roots, nds, att, asubs, adoml, evs, cbdn⟩ := s
    obtain ⟨cid2, cdes, croot2, csubs2, cdh2, ckey2⟩ := c
    simp only at hc hd hroot hsubs hdh hrn hnm hnd
    subst hd hroot hsubs hdh
    have hs1 : lifecycleDestroy cref
        (⟨comps, clook, roots, nds, att, asubs, adoml, evs, cbdn⟩ : CState) =
        ⟨upsertA cref (⟨cid2, true, none, none, none, ckey2⟩ : DComp) comps, clook, roots,
          nds, att, asubs.filter (fun x => ¬x ∈ subsL), adoml.filter (fun x => ¬x ∈ dh),
          evs ++ [(cid2, "destroy")], upsertA rr (none : Option Nat) cbdn⟩ := by
      simp [lifecycleDestroy, hc]
    have hmap : ∀ n ∈ rn.nodes,
        lookupA n (upsertA rr (none : Option Nat) cbdn) = none ∨
        lookupA n (upsertA rr (none : Option Nat) cbdn) = some none := by
      intro n hn
      by_cases hne : n = rr
      · subst hne
        right
        exact lookupA_upsertA_self _ _ _
      · left
        rw [lookupA_upsertA_ne _ _ hne]
        exact hnm n hn
    have hs2 := fold_detach_no_comp rn.nodes
      (⟨upsertA cref (⟨cid2, true, none, none, none, ckey2⟩ : DComp) comps, clook, roots,
        nds, att, asubs.filter (fun x => ¬x ∈ subsL), adoml.filter (fun x => ¬x ∈ dh),
        evs ++ [(cid2, "destroy")], upsertA rr (none : Option Nat) cbdn⟩ : CState) hmap
    have hres : destroyC cref
        (⟨comps, clook, roots, nds, att, asubs, adoml, evs, cbdn⟩ : CState) =
        ⟨upsertA cref (⟨cid2, true, none, none, none, []⟩ : DComp) comps,
          deleteA cid2 clook, upsertA rr (⟨rn.nodes, true⟩ : RootNode) roots, nds,
          att.filter (fun x => ¬x ∈ rn.nodes), asubs.filter (fun x => ¬x ∈ subsL),
          adoml.filter (fun x => ¬x ∈ dh), evs ++ [(cid2, "destroy")],
          upsertA rr (none : Option Nat) cbdn⟩ := by
      unfold destroyC
      rw [hc]
      simp only [Bool.false_eq_true, if_false]
      rw [hs1]
      simp only [hrn]
      rw [hs2]
      simp only [lookupA_upsertA_self, upsertA_upsertA]
    rw [hres]
    refine ⟨rfl, rfl, rfl, rfl, ?_, ?_, ?_⟩
    · exact lookupA_deleteA_none _ _ hnd
    · exact lookupA_upsertA_self _ _ _
    · exact lookupA_upsertA_self _ _ _

/-- Witness for C8: destroying the scenario component emits `destroy` once,
clears its listeners, detaches nodes 10 and 11 (leaving 12), and removes
`c1` from the lookup. -/
theorem c8_witness :
    (destroyC 1 c8S).events = c8S.events ++ [("c1", "destroy")] ∧
    (destroyC 1 c8S).activeSubs = c8S.activeSubs.filter (fun x => ¬x ∈ [7, 8]) ∧
    (destroyC 1 c8S).activeDomListeners = c8S.activeDomListeners.filter (fun x => ¬x ∈ [5]) ∧
    (destroyC 1 c8S).attached = c8S.attached.filter (fun x => ¬x ∈ [10, 11]) ∧
    lookupA "c1" (destroyC 1 c8S).componentLookup = none ∧
    lookupA 1 (destroyC 1 c8S).comps =
      some { c8Comp with destroyed := true, root := none, domHandles := none,
                         subs := none, keyed := [] } ∧
    lookupA 100 (destroyC 1 c8S).roots = some (⟨[10, 11], true⟩ : RootNode) :=
  c8_destroy_idempotent.2.2 c8S 1 c8Comp 100 ⟨[10, 11], false⟩ [7, 8] [5]
    (by rfl) (by rfl) (by rfl) (by rfl) (by rfl) (by rfl) (by decide) (by decide)

end ClaimC8

section ClaimC1

open Lasso Scenario

theorem heapSet_meta (r : Nat) (fld : String) (v : JsVal) (s : RState) :
    (heapSet r fld v s).meta = s.meta := by
  unfold heapSet
  split <;> rfl

theorem requireModule_runCmds_meta (fuel : Nat) :
    (∀ (t : String) (frm? : Option String) (s : RState),
      ((requireModule fuel t frm? s).2).meta = s.meta) ∧
    (∀ (cmds : List Cmd) (dn : String) (r : Nat) (s : RState),
      ((runCmds fuel cmds dn r s).2).meta = s.meta) := by
  induction fuel with
  | zero => exact ⟨fun _ _ _ => rfl, fun _ _ _ _ => rfl⟩
  | succ f ih =>
    constructor
    · intro t frm? s
      simp only [requireModule]
      split
      · rfl
      · split
        · rfl
        · rfl
        · split
          · rfl
          · split
            · rfl
            · split
              · rfl
              · split
                · rename_i e s4 heq
                  have h4 := congrArg Prod.snd heq
                  dsimp only at h4 ⊢
                  rw [← h4, ih.2]
                  rfl
                · rename_i u s4 heq
                  have h4 := congrArg Prod.snd heq
                  dsimp only at h4 ⊢
                  show s4.meta = s.meta
                  rw [← h4, ih.2]
                  rfl
    · intro cmds dn r s
      match cmds with
      | [] => rfl
      | c :: rest =>
        cases c with
        | cset fld v =>
          show ((runCmds f rest dn r (heapSet r fld v s)).2).meta = s.meta
          rw [ih.2, heapSet_meta]
        | cpending =>
          show ((runCmds f rest dn r _).2).meta = s.meta
          rw [ih.2]
        | creq t =>
          show ((match requireModule f t (some dn) s with
            | (Except.error e, s') => ((Except.error e : Except JsErr Unit), s')
            | (Except.ok _, s') => runCmds f rest dn r s').2).meta = s.meta
          split
          · rename_i e s' heq
            have h4 := congrArg Prod.snd heq
            dsimp only at h4 ⊢
            rw [← h4, ih.1]
          · rename_i mo s' heq
            have h4 := congrArg Prod.snd heq
            dsimp only at h4 ⊢
            rw [ih.2, ← h4, ih.1]
        | creqInto fld t =>
          show ((match requireModule f t (some dn) s with
            | (Except.error e, s') => ((Except.error e : Except JsErr Unit), s')
            | (Except.ok mo, s') =>
              runCmds f rest dn r (heapSet r fld mo.exports s')).2).meta = s.meta
          split
          · rename_i e s' heq
            have h4 := congrArg Prod.snd heq
            dsimp only at h4 ⊢
            rw [← h4, ih.1]
          · rename_i mo s' heq
            have h4 := congrArg Prod.snd heq
            dsimp only at h4 ⊢
            rw [ih.2, heapSet_meta, ← h4, ih.1]
end ClaimC1

section ClaimC1b

open Lasso Scenario

/-- C1: when resolution finds a factory definition on a cache miss, the new
`Module` instance is inserted into the instance cache keyed by the resolved
path before the factory body runs (the factory executes in a state whose
cache maps the resolved path to the in-progress, unloaded module whose
exports object has just been allocated); requiring the same target again
afterwards returns the very same module — hence the identical exports
reference — without re-instantiation; and in the concrete circular scenario
(module A's factory requires B, whose factory requires A) B observes A's
in-progress exports object — heap reference 0, the same object A's require
ultimately returns — not `undefined` and not a second instantiation (only
two exports objects are ever allocated, and B's exports field `a` holds the
reference to A's exports object). -/
theorem c1_cache_before_factory :
    (∀ (f : Nat) (target : String) (frm? : Option String) (s : RState) (rp : String)
        (body : List Cmd),
      target ≠ "" →
      resolve (f + 1) target frm? s.meta = .ok (some (rp, .factory body)) →
      lookupA rp s.instanceCache = none →
      lookupA rp s.loadedGlobals = none →
      (requireModule (f + 1) target frm? s =
        match runCmds f body (dirnameOf rp) s.nextRef
            (cachePut rp ⟨rp, false, .ref s.nextRef⟩
              (heapAlloc (cachePut rp ⟨rp, false, .undef⟩ s)).2) with
        | (.error e, s4) => (.error e, s4)
        | (.ok _, s4) =>
          (.ok ⟨rp, true, .ref s.nextRef⟩, cachePut rp ⟨rp, true, .ref s.nextRef⟩ s4)) ∧
      lookupA rp (cachePut rp ⟨rp, false, .ref s.nextRef⟩
          (heapAlloc (cachePut rp ⟨rp, false, .undef⟩ s)).2).instanceCache =
        some ⟨rp, false, .ref s.nextRef⟩) ∧
    (∀ (f : Nat) (target : String) (frm? : Option String) (s : RState) (mo : Module)
        (s' : RState),
      requireModule (f + 1) target frm? s = (.ok mo, s') →
      requireModule (f + 1) target frm? s' = (.ok mo, s')) ∧
    ((requireModule 10 "/a$1.0.0/index" (some "/") c1State).1 =
        .ok ⟨"/a$1.0.0/index", true, .ref 0⟩ ∧
     ((lookupA 1 (requireModule 10 "/a$1.0.0/index" (some "/") c1State).2.heap).bind
        (lookupA "a")) = some (.ref 0) ∧
     (requireModule 10 "/a$1.0.0/index" (some "/") c1State).2.nextRef = 2 ∧
     (lookupA "/b$1.0.0/index"
        (requireModule 10 "/a$1.0.0/index" (some "/") c1State).2.instanceCache).map
        Module.exports = some (.ref 1)) := by
  refine ⟨?_, ?_, by rfl, by rfl, by rfl, by rfl⟩
  · intro f target frm? s rp body ht hres hcache hglob
    constructor
    · simp only [requireModule, ht, if_false, hres, hcache, hglob]
      rfl
    · exact lookupA_upsertA_self _ _ _
  · intro f target frm? s mo s' hreq
    have hmeta : s'.meta = s.meta := by
      have hm := (requireModule_runCmds_meta (f + 1)).1 target frm? s
      rw [hreq] at hm
      exact hm
    by_cases ht : target = ""
    · rw [ht] at hreq
      simp only [requireModule] at hreq
      exact absurd (congrArg Prod.fst hreq) (by simp)
    · have hreq' := hreq
      simp only [requireModule, ht, if_false] at hreq'
      cases hres : resolve (f + 1) target frm? s.meta with
      | error e =>
        simp only [hres] at hreq'
        exact absurd (congrArg Prod.fst hreq') (by simp)
      | ok o =>
        cases o with
        | none =>
          simp only [hres] at hreq'
          exact absurd (congrArg Prod.fst hreq') (by simp)
        | some rd =>
          obtain ⟨rp, d⟩ := rd
          simp only [hres] at hreq'
          cases hcache : lookupA rp s.instanceCache with
          | some mo0 =>
            simp only [hcache] at hreq'
            have h1 : mo0 = mo := by
              have := congrArg Prod.fst hreq'
              simpa using this
            have h2 : s = s' := congrArg Prod.snd hreq'
            subst h1
            subst h2
            simp only [requireModule, ht, if_false, hmeta, hres, hcache]
          | none =>
            simp only [hcache] at hreq'
            cases hglob : lookupA rp s.loadedGlobals with
            | some gmo =>
              simp only [hglob] at hreq'
              have h1 : gmo = mo := by
                have := congrArg Prod.fst hreq'
                simpa using this
              have h2 : s = s' := congrArg Prod.snd hreq'
              subst h1
              subst h2
              simp only [requireModule, ht, if_false, hmeta, hres, hcache, hglob]
            | none =>
              simp only [hglob] at hreq'
              cases d with
              | value v =>
                have h1 : (⟨rp, true, v⟩ : Module) = mo := by
                  have := congrArg Prod.fst hreq'
                  simpa using this
                have h2 := congrArg Prod.snd hreq'
                dsimp only at h2
                simp only [requireModule, ht, if_false, hmeta, hres]
                rw [← h2, ← h1]
                simp [cachePut, lookupA_upsertA_self]
              | factory body =>
                cases hrun : runCmds f body (dirnameOf rp) (heapAlloc (cachePut rp
                    ⟨rp, false, JsVal.undef⟩ s)).1 (cachePut rp ⟨rp, false,
                    JsVal.ref (heapAlloc (cachePut rp ⟨rp, false, JsVal.undef⟩ s)).1⟩
                    (heapAlloc (cachePut rp ⟨rp, false, JsVal.undef⟩ s)).2) with
                | mk res s4 =>
                  simp only [hrun] at hreq'
                  cases res with
                  | error e =>
                    exact absurd (congrArg Prod.fst hreq') (by simp)
                  | ok u =>
                    have h1 : (⟨rp, true, JsVal.ref (heapAlloc (cachePut rp
                        ⟨rp, false, JsVal.undef⟩ s)).1⟩ : Module) = mo := by
                      have := congrArg Prod.fst hreq'
                      simpa using this
                    have h2 := congrArg Prod.snd hreq'
                    dsimp only at h2
                    simp only [requireModule, ht, if_false, hmeta, hres]
                    rw [← h2, ← h1]
                    simp [cachePut, lookupA_upsertA_self]

/-- Witness for C1: requiring module A a second time, in the state produced
by the first require, returns the same module instance and leaves the state
unchanged. -/
theorem c1_witness :
    requireModule 10 "/a$1.0.0/index" (some "/")
        (requireModule 10 "/a$1.0.0/index" (some "/") c1State).2 =
      (.ok ⟨"/a$1.0.0/index", true, .ref 0⟩,
       (requireModule 10 "/a$1.0.0/index" (some "/") c1State).2) := by
  have h : requireModule 10 "/a$1.0.0/index" (some "/") c1State =
      (.ok ⟨"/a$1.0.0/index", true, .ref 0⟩,
       (requireModule 10 "/a$1.0.0/index" (some "/") c1State).2) := by
    have h1 : (requireModule 10 "/a$1.0.0/index" (some "/") c1State).1 =
        .ok ⟨"/a$1.0.0/index", true, .ref 0⟩ := by rfl
    exact Prod.ext h1 rfl
  exact c1_cache_before_factory.2.1 9 "/a$1.0.0/index" (some "/") c1State _ _ h

end ClaimC1b
